import Mathlib

/-!
Shallow embedding of the nakedclaw daemon core (session store, NDJSON control
socket framing, message router, scheduler, daemon lifecycle control) together
with proofs about the claims of the specification.

Conventions:
- File contents and socket byte streams are modelled as `List Char` (the code
  decodes buffers to JS strings before any processing).
- JavaScript runtime builtins (`JSON.stringify`/`JSON.parse` for session
  records, `Date` local-time accessors, `crypto.randomUUID`, `process.kill`)
  are modelled explicitly where their behavior matters and abstracted as
  parameters where only determinism matters.
- Machine integers are `Nat` (all times are epoch milliseconds, nonnegative).
-/

namespace Nakedclaw

/-- Whitespace test matching the characters JavaScript `String.prototype.trim`
and the regex class `\s` strip for the ASCII inputs handled here. -/
def isWsChar (c : Char) : Bool :=
  c = ' ' || c = '\t' || c = '\n' || c = '\r' || c = '\x0c' || c = '\x0b'

/-- Test whether a line is blank, i.e. JavaScript `line.trim()` is falsy. -/
def isBlank (l : List Char) : Bool :=
  l.all isWsChar

/-- Model of JavaScript `String.prototype.split(sep)` for a one-character
separator: the list of (possibly empty) segments between separators.  Always
returns at least one segment. -/
def splitCh (sep : Char) : List Char → List (List Char)
  | [] => [[]]
  | c :: cs =>
    if c = sep then [] :: splitCh sep cs
    else
      match splitCh sep cs with
      | [] => [[c]]
      | s :: ss => (c :: s) :: ss

/-- Model of `buffer.split("\n")` from the daemon data handler and of the
session-store line splitting. -/
def splitNl (s : List Char) : List (List Char) :=
  splitCh '\n' s

/-- Model of JavaScript `array.slice(-k)`: the last `k` elements.  JavaScript
evaluates `-0 === 0`, so for `k = 0` the whole array is returned (`slice(0)`),
not the empty array. -/
def sliceLast (k : Nat) (l : List α) : List α :=
  if k = 0 then l else l.drop (l.length - k)

/-! Session store (`src/session.ts`).  One JSONL file per session key; the
file is modelled as `Option (List Char)` (`none` = the file does not exist). -/

/-- Message roles stored in session transcripts. -/
inductive Role
  | user
  | assistant
  | system
  deriving DecidableEq, Repr

/-- Session transcript record (`SessionMessage` in `src/session.ts`). -/
structure SessionMessage where
  role : Role
  content : String
  timestamp : Nat
  channel : Option String
  sender : Option String
  deriving DecidableEq, Repr

/-- Escaping for one serialized field: the separator characters of the line
format (newline, tab) and the escape character itself are escaped, everything
else passes through.  This models the guarantee of `JSON.stringify` that a
serialized record is a single line. -/
def escChar (c : Char) : List Char :=
  if c = '\\' then ['\\', '\\']
  else if c = '\n' then ['\\', 'n']
  else if c = '\t' then ['\\', 't']
  else [c]

/-- Escape a whole field. -/
def escField (s : List Char) : List Char :=
  s.flatMap escChar

/-- Inverse of `escField`. -/
def unescField : List Char → List Char
  | [] => []
  | [c] => [c]
  | c :: d :: rest =>
    if c = '\\' then
      (if d = 'n' then '\n' else if d = 't' then '\t' else d) :: unescField rest
    else c :: unescField (d :: rest)

/-- Little-endian decimal digit characters of a natural number. -/
def natChars (n : Nat) : List Char :=
  (Nat.digits 10 n).map fun d => Char.ofNat (48 + d)

/-- Inverse of `natChars`. -/
def charsNat (l : List Char) : Nat :=
  Nat.ofDigits 10 (l.map fun c => c.toNat - 48)

/-- Role tag character used by the serializer. -/
def roleChar : Role → Char
  | Role.user => 'u'
  | Role.assistant => 'a'
  | Role.system => 's'

/-- Inverse of `roleChar` (defaulting to `user`). -/
def charRole (c : Char) : Role :=
  if c = 'a' then Role.assistant
  else if c = 's' then Role.system
  else Role.user

/-- Serialize an optional string field. -/
def encOpt : Option String → List Char
  | none => ['n']
  | some s => 'c' :: escField s.data

/-- Inverse of `encOpt`. -/
def decOpt : List Char → Option String
  | 'c' :: rest => some (unescField rest).asString
  | _ => none

/-- Model of `JSON.stringify(msg)` in `appendMessage`: a newline-free,
non-blank, decodable one-line serialization of a `SessionMessage`.  The exact
field syntax of JSON is irrelevant to the session store; what the store relies
on is that every record is one non-blank line and that parsing inverts
serialization, which this concrete format provides. -/
def encodeMsg (m : SessionMessage) : List Char :=
  roleChar m.role ::
    '\t' :: escField m.content.data ++
    '\t' :: natChars m.timestamp ++
    '\t' :: encOpt m.channel ++
    '\t' :: encOpt m.sender

/-- Model of `JSON.parse(line)` on session-store lines, total with a default
record (the store only ever parses lines it wrote itself). -/
def decodeMsg (l : List Char) : SessionMessage :=
  match splitCh '\t' l with
  | [f1, f2, f3, f4, f5] =>
    { role := charRole (f1.headD 'u')
      content := (unescField f2).asString
      timestamp := charsNat f3
      channel := decOpt f4
      sender := decOpt f5 }
  | _ =>
    { role := Role.user, content := "", timestamp := 0
      channel := none, sender := none }

/-- Model of `appendMessage` (`src/session.ts`): `appendFileSync(path,
JSON.stringify(msg) + "\n")`; appending to an absent file creates it. -/
def appendMessage (file : Option (List Char)) (m : SessionMessage) :
    Option (List Char) :=
  some (file.getD [] ++ encodeMsg m ++ ['\n'])

/-- Model of `getMessages` (`src/session.ts`): an absent file reads as `[]`;
otherwise split the content on newlines, drop blank lines, parse each line,
and keep the most recent `2 * maxTurns` records (`messages.slice(-maxTurns *
2)`) when the list is longer than that. -/
def getMessages (maxTurns : Nat) (file : Option (List Char)) :
    List SessionMessage :=
  match file with
  | none => []
  | some content =>
    let lines := (splitNl content).filter fun l => !isBlank l
    let messages := lines.map decodeMsg
    if messages.length > maxTurns * 2 then sliceLast (maxTurns * 2) messages
    else messages

/-- Model of `clearSession` (`src/session.ts`): delete the file if present;
idempotent. -/
def clearSession (_file : Option (List Char)) : Option (List Char) :=
  none

/-- Characters the sender sanitizer keeps, the regex class
`[a-zA-Z0-9_@+\-]` of `sessionKeyFromMessage`. -/
def keyAllowedChar (c : Char) : Bool :=
  ('a' ≤ c && c ≤ 'z') || ('A' ≤ c && c ≤ 'Z') || ('0' ≤ c && c ≤ '9') ||
    c = '_' || c = '@' || c = '+' || c = '-'

/-- Model of `sessionKeyFromMessage` (`src/session.ts`): every character of
the sender outside `[a-zA-Z0-9_@+\-]` is replaced by an underscore and the
result is prefixed by the channel and a colon. -/
def sessionKeyFromMessage (channel sender : String) : String :=
  channel ++ ":" ++
    (sender.data.map fun c => if keyAllowedChar c then c else '_').asString

/-- Model of `sessionFilePath` (`src/session.ts`): the per-key transcript file
name inside the session directory. -/
def sessionFilePath (dir sessionKey : String) : String :=
  dir ++ "/" ++ sessionKey ++ ".jsonl"

/-- Model of JavaScript `String.prototype.trim`. -/
def jsTrim (s : List Char) : List Char :=
  ((s.dropWhile isWsChar).reverse.dropWhile isWsChar).reverse

/-- Decimal digit test. -/
def isDigitCh (c : Char) : Bool :=
  '0' ≤ c && c ≤ '9'

/-- Hexadecimal digit value, if any. -/
def hexVal (c : Char) : Option Nat :=
  if '0' ≤ c && c ≤ '9' then some (c.toNat - 48)
  else if 'a' ≤ c && c ≤ 'f' then some (c.toNat - 87)
  else if 'A' ≤ c && c ≤ 'F' then some (c.toNat - 55)
  else none

/-- Digit values of the maximal digit prefix of a character list. -/
def takeDigits (digOf : Char → Option Nat) : List Char → List Nat
  | [] => []
  | c :: cs =>
    match digOf c with
    | none => []
    | some d => d :: takeDigits digOf cs

/-- Value of a big-endian digit list. -/
def digitsVal (base : Nat) (ds : List Nat) : Nat :=
  ds.foldl (fun a d => a * base + d) 0

/-- Digit value of a decimal digit character, if any. -/
def decVal (c : Char) : Option Nat :=
  if isDigitCh c then some (c.toNat - 48) else none

/-! Calendar arithmetic.  The scheduler builds cron expressions from the
local-time fields of JavaScript `Date` values (`getMinutes`, `getHours`,
`getDate`, `getMonth`) and the croner library runs them against local time.
The model fixes the host timezone as a constant offset of `off` whole minutes
east of UTC (no daylight-saving transitions) and computes the proleptic
Gregorian fields from epoch milliseconds. -/

/-- Gregorian leap-year rule. -/
def isLeap (y : Nat) : Bool :=
  (y % 4 = 0 && y % 100 ≠ 0) || y % 400 = 0

/-- Length of month `m` (1-12) of year `y` in days. -/
def daysInMonth (y m : Nat) : Nat :=
  if m = 2 then (if isLeap y then 29 else 28)
  else if m = 4 || m = 6 || m = 9 || m = 11 then 30
  else 31

/-- Length of year `y` in days. -/
def daysInYear (y : Nat) : Nat :=
  if isLeap y then 366 else 365

/-- Walk the months of year `y` starting at month `m`, consuming `n` days;
returns `(year, month, dayOfMonth)`.  Structural fuel; `12` is always
sufficient starting from month 1 with `n < daysInYear y`. -/
def monthIter : Nat → Nat → Nat → Nat → Nat × Nat × Nat
  | 0, y, m, n => (y, m, n + 1)
  | fuel + 1, y, m, n =>
    if n < daysInMonth y m then (y, m, n + 1)
    else monthIter fuel y (m + 1) (n - daysInMonth y m)

/-- Walk years starting at `y`, consuming `n` days; structural fuel, any
`fuel > n` is sufficient. -/
def yearIter : Nat → Nat → Nat → Nat × Nat × Nat
  | 0, y, _ => (y, 1, 1)
  | fuel + 1, y, n =>
    if n < daysInYear y then monthIter 12 y 1 n
    else yearIter fuel (y + 1) (n - daysInYear y)

/-- Calendar date `(year, month, day)` of day number `n` (days since
1970-01-01). -/
def ymdFromDays (n : Nat) : Nat × Nat × Nat :=
  yearIter (n + 1) 1970 n

/-- Sum of the lengths of `k` consecutive years starting at `y`. -/
def yearsDaysAux : Nat → Nat → Nat
  | 0, _ => 0
  | k + 1, y => daysInYear y + yearsDaysAux k (y + 1)

/-- Days from 1970-01-01 to the start of year `y`. -/
def yearsSince1970 (y : Nat) : Nat :=
  yearsDaysAux (y - 1970) 1970

/-- Sum of the lengths of `k` consecutive months of year `y` starting at
month `m`. -/
def monthsDaysAux : Nat → Nat → Nat → Nat
  | 0, _, _ => 0
  | k + 1, y, m => daysInMonth y m + monthsDaysAux k y (m + 1)

/-- Days from the start of year `y` to the start of its month `m`. -/
def monthsBefore (y m : Nat) : Nat :=
  monthsDaysAux (m - 1) y 1

/-- Day number (days since 1970-01-01) of the date `(y, m, d)`. -/
def daysFromYmd (y m d : Nat) : Nat :=
  yearsSince1970 y + monthsBefore y m + (d - 1)

/-- Local minute count of an epoch-milliseconds instant under a fixed
timezone offset of `off` minutes east of UTC. -/
def localMin (off t : Nat) : Nat :=
  t / 60000 + off

/-- Model of `Date.prototype.getMinutes` under the fixed offset. -/
def getMinutesJS (off t : Nat) : Nat :=
  localMin off t % 60

/-- Model of `Date.prototype.getHours` under the fixed offset. -/
def getHoursJS (off t : Nat) : Nat :=
  localMin off t / 60 % 24

/-- Model of `Date.prototype.getDate` (day of month) under the fixed
offset. -/
def getDateJS (off t : Nat) : Nat :=
  (ymdFromDays (localMin off t / 1440)).2.2

/-- Model of `Date.prototype.getMonth() + 1` (month, 1-12) under the fixed
offset. -/
def getMonthJS (off t : Nat) : Nat :=
  (ymdFromDays (localMin off t / 1440)).2.1

/-! Cron expressions and the croner library.  The scheduler only ever builds
the three shapes below; the job record's textual `cronExpr` field is modelled
structurally (see `cronExprStr` for the rendered string).  `cronNextRun`
models what the croner dependency documents for a five-field expression: the
earliest instant strictly after `now`, on a whole local minute (seconds and
milliseconds zero), whose local minute/hour/day-of-month/month fields match
the expression. -/

/-- Structural form of the cron strings generated by `parseTimeToJob`:
`"mi h d mo *"`, `"mi h * * *"`, and `"0 */iv * * *"`. -/
inductive CronExpr
  | atDate (minute hour dom month : Nat)
  | daily (minute hour : Nat)
  | everyHours (interval : Nat)
  deriving DecidableEq, Repr

/-- Textual rendering of a modelled cron expression, exactly the string the
source stores in `ScheduledJob.cronExpr`. -/
def cronExprStr : CronExpr → String
  | .atDate mi h d mo =>
    toString mi ++ " " ++ toString h ++ " " ++ toString d ++ " " ++
      toString mo ++ " *"
  | .daily mi h => toString mi ++ " " ++ toString h ++ " * * *"
  | .everyHours iv => "0 */" ++ toString iv ++ " * * *"

/-- Candidate local minute for pattern `atDate` in year `y`, when the date is
valid in that year. -/
def atDateCandidate (mi h d mo y : Nat) : Option Nat :=
  if 1 ≤ mo && mo ≤ 12 && 1 ≤ d && d ≤ daysInMonth y mo then
    some (daysFromYmd y mo d * 1440 + h * 60 + mi)
  else none

/-- Model of croner's `nextRun()?.getTime()` for the generated expression
shapes: the earliest future matching instant in epoch milliseconds, `none`
when no future instant matches.  An `atDate` pattern recurs yearly, so the
next match is found among the candidate years starting at the current local
year (a ten-year window always contains the next valid occurrence of any
valid month/day pair). -/
def cronNextRun (off now : Nat) : CronExpr → Option Nat
  | .atDate mi h d mo =>
    let un := localMin off now
    let y0 := (ymdFromDays (un / 1440)).1
    let cands := (List.range 10).filterMap fun k => atDateCandidate mi h d mo (y0 + k)
    ((cands.filter fun c => un < c).head?).map fun c => (c - off) * 60000
  | .daily mi h =>
    let un := localMin off now
    let base := un / 1440 * 1440 + h * 60 + mi
    let c := if un < base then base else base + 1440
    some ((c - off) * 60000)
  | .everyHours iv =>
    let un := localMin off now
    if iv = 0 then none
    else
      let cands := (List.range 26).map fun k => (un / 60 + k) * 60
      ((cands.filter fun c => un < c && c / 60 % 24 % iv = 0).head?).map
        fun c => (c - off) * 60000

/-! Scheduler (`src/scheduler/scheduler.ts`).  The module state is the
in-memory `jobStore` array, the `activeJobs` map of live croner timers
(modelled by the set of armed job ids), and the persisted
`scheduled-jobs.json` contents.  Jobs are pushed into `jobStore` by reference
and the croner callback closes over the same object, so a field assignment on
the closure's job mutates the store entry with that id. -/

/-- Persisted/in-memory job record (`ScheduledJob` in the source, with the
textual `cronExpr` modelled structurally). -/
structure ScheduledJob where
  id : String
  name : String
  cronExpr : CronExpr
  message : String
  channel : String
  sender : String
  oneShot : Bool
  createdAt : Nat
  nextRunAt : Option Nat := none
  lastRunAt : Option Nat := none
  deriving DecidableEq, Repr

/-- Argument of `addJob` (`Omit<ScheduledJob, "id" | "createdAt">`). -/
structure JobTemplate where
  name : String
  cronExpr : CronExpr
  message : String
  channel : String
  sender : String
  oneShot : Bool
  deriving DecidableEq, Repr

/-- Scheduler module state. -/
structure SchedState where
  jobStore : List ScheduledJob
  activeJobs : List String
  persisted : List ScheduledJob
  deriving DecidableEq, Repr

/-- Model of `saveJobs`: rewrite the persisted file wholesale from the
in-memory store. -/
def saveJobs (s : SchedState) : SchedState :=
  { s with persisted := s.jobStore }

/-- Model of `listJobs`: a copy of the in-memory store. -/
def listJobs (s : SchedState) : List ScheduledJob :=
  s.jobStore

/-- Model of `startCronForJob`: stop and replace any live timer for the id,
arm a new croner timer, and assign `job.nextRunAt = cron.nextRun()` through
the shared reference (visible in the store entry with that id, but not in the
persisted file until the next `saveJobs`). -/
def startCronForJob (off now : Nat) (s : SchedState) (job : ScheduledJob) :
    SchedState :=
  let next := cronNextRun off now job.cronExpr
  { s with
    activeJobs := job.id :: s.activeJobs.erase job.id
    jobStore := s.jobStore.map fun j =>
      if j.id = job.id then { j with nextRunAt := next } else j }

/-- Model of `addJob`: assign a fresh id (`crypto.randomUUID()`, supplied by
the caller environment) and creation time, push, persist, arm the timer, and
return the job object (which by aliasing carries the `nextRunAt` assigned by
`startCronForJob`). -/
def addJob (off now : Nat) (uuid : String) (s : SchedState)
    (tmpl : JobTemplate) : SchedState × ScheduledJob :=
  let newJob : ScheduledJob :=
    { id := uuid, name := tmpl.name, cronExpr := tmpl.cronExpr
      message := tmpl.message, channel := tmpl.channel, sender := tmpl.sender
      oneShot := tmpl.oneShot, createdAt := now }
  let s1 := saveJobs { s with jobStore := s.jobStore ++ [newJob] }
  let s2 := startCronForJob off now s1 newJob
  (s2, { newJob with nextRunAt := cronNextRun off now newJob.cronExpr })

/-- Model of `removeJob`: stop the live timer if present, filter the store,
persist, and report whether the store shrank. -/
def removeJob (s : SchedState) (id : String) : SchedState × Bool :=
  let s1 := { s with activeJobs := s.activeJobs.erase id }
  let before := s1.jobStore.length
  let s2 := saveJobs { s1 with jobStore := s1.jobStore.filter fun j => j.id ≠ id }
  (s2, s2.jobStore.length < before)

/-- Model of the croner timer callback installed by `startCronForJob`, firing
at epoch time `now` for the job with the given id.  The callback sets
`job.lastRunAt = Date.now()` through the shared reference, invokes the
registered job callback if one is set (the returned list collects the
invocations), then either removes a one-shot job or persists.  A fire can
only happen while the timer is live, hence while the job is in the store; the
`none` branch is unreachable. -/
def fireJob (cbRegistered : Bool) (s : SchedState) (id : String) (now : Nat) :
    SchedState × List ScheduledJob :=
  match s.jobStore.find? fun j => j.id = id with
  | none => (s, [])
  | some job =>
    let fired := { job with lastRunAt := some now }
    let s1 := { s with jobStore := s.jobStore.map fun j =>
      if j.id = id then { j with lastRunAt := some now } else j }
    let invoked := if cbRegistered then [fired] else []
    if job.oneShot then ((removeJob s1 id).1, invoked)
    else (saveJobs s1, invoked)

/-! Natural-language time parsing (`parseTimeToJob`).  The source matches the
lowercased, trimmed input against four anchored regular expressions; each
matcher below implements one of them. -/

/-- Strip a literal prefix. -/
def stripLit : List Char → List Char → Option (List Char)
  | [], s => some s
  | _ :: _, [] => none
  | c :: cs, x :: xs => if x = c then stripLit cs xs else none

/-- Require at least one whitespace character and skip the whole run
(`\s+`). -/
def ws1 : List Char → Option (List Char)
  | [] => none
  | c :: cs => if isWsChar c then some (cs.dropWhile isWsChar) else none

/-- Value of a nonempty all-digit character group. -/
def digitGroupVal (ds : List Char) : Nat :=
  digitsVal 10 (ds.map fun c => c.toNat - 48)

/-- Matcher for `^in\s+(\d+)\s+min(?:ute)?s?$`, returning the captured
number. -/
def matchInMinutes (s : List Char) : Option Nat := do
  let s ← stripLit ['i', 'n'] s
  let s ← ws1 s
  let ds := s.takeWhile isDigitCh
  let s := s.dropWhile isDigitCh
  if ds.isEmpty then none
  else do
    let s ← ws1 s
    if s = ['m', 'i', 'n'] || s = ['m', 'i', 'n', 's'] ||
        s = ['m', 'i', 'n', 'u', 't', 'e'] ||
        s = ['m', 'i', 'n', 'u', 't', 'e', 's'] then
      some (digitGroupVal ds)
    else none

/-- Matcher for the clock-time tail `(\d{1,2})(?::(\d{2}))?\s*(am|pm)?$`,
returning hours, minutes, and the meridiem suffix (`some true` = pm). -/
def matchClockTime (s : List Char) : Option (Nat × Nat × Option Bool) := do
  let hs := s.takeWhile isDigitCh
  let s := s.dropWhile isDigitCh
  if hs.isEmpty || hs.length > 2 then none
  else do
    let (mins, s) ←
      match s with
      | ':' :: rest =>
        let ms := rest.takeWhile isDigitCh
        if ms.length = 2 then some (digitGroupVal ms, rest.dropWhile isDigitCh)
        else none
      | _ => some (0, s)
    let s := s.dropWhile isWsChar
    let ampm ←
      match s with
      | [] => some none
      | ['a', 'm'] => some (some false)
      | ['p', 'm'] => some (some true)
      | _ => none
    some (digitGroupVal hs, mins, ampm)

/-- Matcher for `^(?:at\s+)?` followed by a clock time. -/
def matchAtTime (s : List Char) : Option (Nat × Nat × Option Bool) :=
  match stripLit ['a', 't'] s with
  | some r =>
    match ws1 r with
    | some r2 => matchClockTime r2
    | none => matchClockTime s
  | none => matchClockTime s

/-- Matcher for `^every\s+day\s+at\s+` followed by a clock time. -/
def matchEveryDayAt (s : List Char) : Option (Nat × Nat × Option Bool) := do
  let s ← stripLit ['e', 'v', 'e', 'r', 'y'] s
  let s ← ws1 s
  let s ← stripLit ['d', 'a', 'y'] s
  let s ← ws1 s
  let s ← stripLit ['a', 't'] s
  let s ← ws1 s
  matchClockTime s

/-- Matcher for `^every\s+(\d+)\s+hours?$`. -/
def matchEveryHours (s : List Char) : Option Nat := do
  let s ← stripLit ['e', 'v', 'e', 'r', 'y'] s
  let s ← ws1 s
  let ds := s.takeWhile isDigitCh
  let s := s.dropWhile isDigitCh
  if ds.isEmpty then none
  else do
    let s ← ws1 s
    if s = ['h', 'o', 'u', 'r'] || s = ['h', 'o', 'u', 'r', 's'] then
      some (digitGroupVal ds)
    else none

/-- Meridiem adjustment of `parseTimeToJob`: `pm` adds 12 to hours below 12,
`12am` becomes 0. -/
def adjustHours (h : Nat) (ampm : Option Bool) : Nat :=
  if ampm = some true && h < 12 then h + 12
  else if ampm = some false && h = 12 then 0
  else h

/-- Zero-padded two-digit rendering (`String(minutes).padStart(2, "0")`). -/
def pad2 (n : Nat) : String :=
  if n < 10 then "0" ++ toString n else toString n

/-- String form of `jsTrim`. -/
def strTrim (s : String) : String :=
  (jsTrim s.data).asString

/-- Model of JavaScript `s.startsWith(pre)`. -/
def strStarts (s pre : String) : Bool :=
  pre.data.isPrefixOf s.data

/-- Model of JavaScript `s.slice(n)` for a nonnegative `n`. -/
def strDrop (s : String) (n : Nat) : String :=
  (s.data.drop n).asString

/-- Model of JavaScript `s.slice(0, n)` for a nonnegative `n`. -/
def strTake (s : String) (n : Nat) : String :=
  (s.data.take n).asString

/-- Predicate split: segments of a character list between separator
characters (like `splitCh`, with a character class instead of one
separator). -/
def splitP (p : Char → Bool) : List Char → List (List Char)
  | [] => [[]]
  | c :: cs =>
    if p c then [] :: splitP p cs
    else
      match splitP p cs with
      | [] => [[c]]
      | s :: ss => (c :: s) :: ss

/-- Model of `parseTimeToJob` (`src/scheduler/scheduler.ts`).  `now` is the
`Date.now()` at parse time and `off` the fixed timezone offset.  Relative
"in N minutes" specs and absolute "at H[:MM][am|pm]" specs yield one-shot
jobs pinned to a day-of-month/month cron date; "every day at" and "every N
hours" yield recurring expressions; anything else yields `none`. -/
def parseTimeToJob (off now : Nat) (input channel sender : String) :
    Option JobTemplate :=
  let lower := jsTrim (input.data.map Char.toLower)
  match matchInMinutes lower with
  | some mins =>
    let target := now + mins * 60000
    some
      { name := "Reminder in " ++ toString mins ++ "m"
        cronExpr := .atDate (getMinutesJS off target) (getHoursJS off target)
          (getDateJS off target) (getMonthJS off target)
        message := "", channel := channel, sender := sender, oneShot := true }
  | none =>
  match matchAtTime lower with
  | some (h0, mins, ampm) =>
    let hours := adjustHours h0 ampm
    let un := localMin off now
    let base := un / 1440 * 1440 + hours * 60 + mins
    let target :=
      if (base - off) * 60000 ≤ now then (base + 1440 - off) * 60000
      else (base - off) * 60000
    some
      { name := "Reminder at " ++ toString hours ++ ":" ++ pad2 mins
        cronExpr := .atDate mins hours (getDateJS off target)
          (getMonthJS off target)
        message := "", channel := channel, sender := sender, oneShot := true }
  | none =>
  match matchEveryDayAt lower with
  | some (h0, mins, ampm) =>
    let hours := adjustHours h0 ampm
    some
      { name := "Daily at " ++ toString hours ++ ":" ++ pad2 mins
        cronExpr := .daily mins hours
        message := "", channel := channel, sender := sender, oneShot := false }
  | none =>
  match matchEveryHours lower with
  | some iv =>
    some
      { name := "Every " ++ toString iv ++ "h"
        cronExpr := .everyHours iv
        message := "", channel := channel, sender := sender, oneShot := false }
  | none => none

/-! Daemon lifecycle control (`src/cli/daemon-ctl.ts`). -/

/-- Model of JavaScript `parseInt(text)` with no radix argument: skip leading
whitespace, read an optional sign, detect a `0x`/`0X` hexadecimal prefix, and
interpret the maximal digit prefix; `none` models `NaN` (no digits at all). -/
def parseIntJS (s : List Char) : Option Int :=
  let t := s.dropWhile isWsChar
  let (sign, t) : Int × List Char :=
    match t with
    | '-' :: rest => (-1, rest)
    | '+' :: rest => (1, rest)
    | _ => (1, t)
  let (base, digOf, t) : Nat × (Char → Option Nat) × List Char :=
    match t with
    | '0' :: 'x' :: rest => (16, hexVal, rest)
    | '0' :: 'X' :: rest => (16, hexVal, rest)
    | _ => (10, decVal, t)
  let ds := takeDigits digOf t
  if ds.isEmpty then none else some (sign * digitsVal base ds)

/-- Result record of `isDaemonRunning` (`{running, pid?}`). -/
structure DaemonStatus where
  running : Bool
  pid : Option Int
  deriving DecidableEq, Repr

/-- Environment seen by `isDaemonRunning`: the PID file content, if the file
exists, and the liveness of each process id (`process.kill(pid, 0)` succeeds
exactly on live processes and throws otherwise). -/
structure ProcEnv where
  pidFile : Option String
  alive : Int → Bool

/-- Model of `isDaemonRunning` (`src/cli/daemon-ctl.ts`): a missing PID file,
a PID file whose trimmed content does not `parseInt` to a number, and a PID
file naming a dead process all yield `{running: false}`; the probe throw is
caught.  The environment is returned unchanged: the function only reads the
PID file, it never deletes or rewrites it. -/
def isDaemonRunning (env : ProcEnv) : DaemonStatus × ProcEnv :=
  match env.pidFile with
  | none => ({ running := false, pid := none }, env)
  | some content =>
    match parseIntJS (jsTrim content.data) with
    | none => ({ running := false, pid := none }, env)
    | some pid =>
      if env.alive pid then ({ running := true, pid := some pid }, env)
      else ({ running := false, pid := none }, env)

/-! Control-plane protocol (`src/daemon/protocol.ts`). -/

/-- Client-to-daemon message vocabulary. -/
inductive ClientMessage
  | chat (sessionId text : String)
  | command (sessionId command args : String)
  | status
  | ping
  deriving DecidableEq, Repr

/-- Daemon-to-client message vocabulary. -/
inductive ServerMessage
  | chatResponse (sessionId text : String) (done : Bool)
  | statusResponse (running : Bool) (channels : List String)
      (uptime sessions jobs : Nat)
  | commandResponse (text : String)
  | error (message : String)
  | pong
  deriving DecidableEq, Repr

/-! Message router (`src/router.ts`).  The router's collaborators (the agent,
the memory store, the skills subsystem, heartbeat state, the `Date`
formatters) are external to the core; the environment record below supplies
their responses for one dispatch, and the router's own control flow and reply
construction are modelled faithfully on top of it. -/

/-- Skill status entry as produced by `getAllSkillStatuses`. -/
structure SkillStatus where
  name : String
  description : String
  emoji : Option String
  eligible : Bool
  missingBins : List String
  missingEnv : List String
  install : Option (List String)
  deriving DecidableEq, Repr

/-- External collaborators and module state visible to one router dispatch. -/
structure RouterEnv where
  off : Nat
  now : Nat
  uuid : String
  sched : SchedState
  sessions : List String
  hbEnabled : Bool
  hbRunning : Bool
  hbCronExpr : String
  hbNextRun : Option String
  memoryIndex : String
  search : String → List (String × List String)
  agent : String → String → Except String String
  isoString : Nat → String
  localeString : Nat → String
  syncOutcome : Except String Unit
  installOutcome : String → Bool × String
  statuses : List SkillStatus
  channels : List String
  startTime : Nat

/-- Model of JavaScript `a || b` for an optional string (`undefined` and the
empty string are both falsy). -/
def jsOr (s : Option String) (d : String) : String :=
  match s with
  | some e => if e = "" then d else e
  | none => d

/-- Reply text of the `/status` command. -/
def statusText (env : RouterEnv) : String :=
  "NakedClaw Status\n" ++
    "Sessions: " ++ toString env.sessions.length ++ "\n" ++
    "Scheduled jobs: " ++ toString (listJobs env.sched).length ++ "\n" ++
    "Heartbeat: " ++ (if env.hbEnabled then "on" else "off") ++
    (match env.hbNextRun with
     | some nr => " (next: " ++ nr ++ ")"
     | none => "")

/-- Reply text of the `/memory` command (index truncated to 3000
characters for messaging). -/
def memoryText (env : RouterEnv) : String :=
  if env.memoryIndex.length > 3000 then strTake env.memoryIndex 3000 ++ "\n..."
  else env.memoryIndex

/-- Reply text of the `/search` command for a nonempty query. -/
def searchText (env : RouterEnv) (arg : String) : String :=
  let results := env.search arg
  if results.isEmpty then "No results for \"" ++ arg ++ "\""
  else
    "Search: \"" ++ arg ++ "\"\n\n" ++
      String.join ((results.take 5).map fun r =>
        r.1 ++ ":\n" ++
          String.join ((r.2.take 3).map fun m => "  " ++ strTrim m ++ "\n") ++
          "\n")

/-- Reply text of the `/jobs` command. -/
def jobsText (env : RouterEnv) : String :=
  let jobs := listJobs env.sched
  if jobs.isEmpty then "No scheduled jobs."
  else
    "Scheduled Jobs:\n\n" ++
      String.join (jobs.map fun j =>
        "• " ++ j.name ++ " (" ++ cronExprStr j.cronExpr ++ ")" ++
          (match j.nextRunAt with
           | some t => " → next: " ++ env.localeString t
           | none => "") ++
          "\n  Message: " ++ j.message ++ "\n  ID: " ++ j.id ++ "\n\n")

/-- Reply text of the `/heartbeat` command. -/
def heartbeatText (env : RouterEnv) : String :=
  "Heartbeat: " ++ (if env.hbEnabled then "enabled" else "disabled") ++ "\n" ++
    "Running: " ++ (if env.hbRunning then "true" else "false") ++ "\n" ++
    "Cron: " ++ env.hbCronExpr ++ "\n" ++
    "Next: " ++ jsOr env.hbNextRun "n/a"

/-- Reply text of the `/skills` listing for a nonempty status list. -/
def skillsListText (env : RouterEnv) : String :=
  let ready := env.statuses.filter fun s => s.eligible
  let notReady := env.statuses.filter fun s => !s.eligible
  "Skills (" ++ toString ready.length ++ " ready, " ++
    toString notReady.length ++ " available to install)\n\n" ++
    "READY:\n" ++
    String.join (ready.map fun s =>
      "  " ++ jsOr s.emoji "✓" ++ " " ++ s.name ++ " — " ++ s.description ++
        "\n") ++
    "\nNOT INSTALLED (" ++ toString notReady.length ++ "):\n" ++
    String.join (notReady.map fun s =>
      "  " ++ jsOr s.emoji "✗" ++ " " ++ s.name ++ " — " ++ s.description ++
        "\n" ++
        (let missing :=
          (if s.missingBins.isEmpty then []
           else ["bins: " ++ String.intercalate ", " s.missingBins]) ++
          (if s.missingEnv.isEmpty then []
           else ["env: " ++ String.intercalate ", " s.missingEnv])
         if missing.isEmpty then ""
         else "    needs: " ++ String.intercalate "; " missing ++ "\n") ++
        (match s.install with
         | some l =>
           if l.isEmpty then ""
           else "    install: /skills install " ++ s.name ++ "\n"
         | none => ""))

/-- Usage text of the `/schedule` command. -/
def schedUsageText : String :=
  "Usage: /schedule <time> <message>\nExamples:\n  /schedule at 10 Check email\n  /schedule in 30 minutes Call mom\n  /schedule every day at 9am Morning review"

/-- Model of JavaScript `text.split(/\s+/)` for trimmed input: the maximal
whitespace-free runs. -/
def splitWsStr (text : String) : List String :=
  ((splitP isWsChar text.data).filter fun s => s ≠ []).map List.asString

/-- Model of `tryParseSchedule`'s descending prefix loop: try the first `i`
words as the time part, the rest as the reminder text. -/
def tryParseScheduleAux (off now : Nat) (channel sender : String)
    (words : List String) : Nat → Option (JobTemplate × String)
  | 0 => none
  | i + 1 =>
    let timePart := String.intercalate " " (words.take (i + 1))
    let rest := String.intercalate " " (words.drop (i + 1))
    let messagePart := if rest = "" then "Reminder" else rest
    match parseTimeToJob off now timePart channel sender with
    | some tmpl =>
      some
        ({ tmpl with
            message := messagePart
            name := strTake messagePart 50 },
          messagePart)
    | none => tryParseScheduleAux off now channel sender words i

/-- Model of `tryParseSchedule` (`src/router.ts`). -/
def tryParseSchedule (off now : Nat) (input channel sender : String) :
    Option (JobTemplate × String) :=
  let words := splitWsStr input
  tryParseScheduleAux off now channel sender words (min words.length 6)

/-- Replies produced by one `runAgent` round trip: the agent's text on
success, the caught error message prefixed `Error: ` on a throw. -/
def agentReplies (env : RouterEnv) (key text : String) : List String :=
  match env.agent key text with
  | .ok t => [t]
  | .error e => ["Error: " ++ e]

/-- Dispatch of `handleCommand` (`src/router.ts`) on the already-split
command word and argument rest: the sequence of `reply` invocations for a
recognized slash command, `none` for an unrecognized one. -/
def handleCommandAux (env : RouterEnv) (channel sender cmd arg : String) :
    Option (List String) :=
  if cmd = "/reset" then some ["Session cleared."]
  else if cmd = "/status" then some [statusText env]
  else if cmd = "/memory" then some [memoryText env]
  else if cmd = "/search" then
    if arg = "" then some ["Usage: /search <query>"]
    else some [searchText env arg]
  else if cmd = "/schedule" then
    if arg = "" then some [schedUsageText]
    else
      match tryParseSchedule env.off env.now arg channel sender with
      | none =>
        some ["Couldn't parse time. Try:\n  at 10, at 3pm, in 30 minutes, every day at 9am"]
      | some (tmpl, reminderText) =>
        let job := (addJob env.off env.now env.uuid env.sched tmpl).2
        some ["Scheduled: \"" ++ tmpl.name ++ "\" → \"" ++ reminderText ++
          "\"\nID: " ++ job.id ++ "\nNext: " ++
          (match job.nextRunAt with
           | some t => env.isoString t
           | none => "soon")]
  else if cmd = "/jobs" then some [jobsText env]
  else if cmd = "/cancel" then
    if arg = "" then some ["Usage: /cancel <job-id>"]
    else
      some [if (removeJob env.sched arg).2 then "Job cancelled."
        else "Job not found."]
  else if cmd = "/heartbeat" then some [heartbeatText env]
  else if cmd = "/skills" then
    if arg = "sync" then
      some [match env.syncOutcome with
        | .ok _ => "Skills catalog synced."
        | .error e => "Sync failed: " ++ e]
    else if strStarts arg "install " then
      let name := strTrim (strDrop arg 8)
      let r := env.installOutcome name
      some ["Installing " ++ name ++ "...",
        if r.1 then "Installed " ++ name ++ "." else "Failed: " ++ r.2]
    else if env.statuses.isEmpty then
      some ["No skills found. Syncing...",
        match env.syncOutcome with
        | .ok _ => "Synced. Run /skills again to see the list."
        | .error e => "Sync failed: " ++ e]
    else some [skillsListText env]
  else none

/-- Model of `handleCommand` (`src/router.ts`): split the text on whitespace
into the command word and the joined argument rest, then dispatch. -/
def handleCommand (env : RouterEnv) (channel sender text : String) :
    Option (List String) :=
  handleCommandAux env channel sender ((splitWsStr text).headD "")
    (String.intercalate " " (splitWsStr text).tail)

/-- Model of `handleMessage` (`src/router.ts`): the sequence of `reply`
invocations for one incoming message.  A trimmed text starting with `/` is
offered to `handleCommand`; unhandled commands and plain text go to the
agent, whose throw is caught and converted into an `Error: ` reply.  (The
transcript appends `appendMessage`/`appendChat` mutate the stores and are not
part of the reply sequence.) -/
def handleMessageReplies (env : RouterEnv) (channel sender rawText : String) :
    List String :=
  let key := sessionKeyFromMessage channel sender
  let text := strTrim rawText
  if strStarts text "/" then
    match handleCommand env channel sender text with
    | some rs => rs
    | none => agentReplies env key text
  else agentReplies env key text

/-- Model of `handleClientMessage` (`src/daemon/server.ts`): the sequence of
server messages written on the connection for one decoded client message.  A
`chat` reply callback wraps each router reply in a `chat_response` with the
request's `sessionId` and `done: true`; a `command` request is routed through
the router as the concatenated command text and each reply is wrapped in a
`command_response`. -/
def handleClientMessage (env : RouterEnv) (m : ClientMessage) :
    List ServerMessage :=
  match m with
  | .ping => [.pong]
  | .status =>
    [.statusResponse true env.channels (env.now - env.startTime)
      env.sessions.length (listJobs env.sched).length]
  | .chat sid text =>
    (handleMessageReplies env "terminal" sid text).map fun t =>
      .chatResponse sid t true
  | .command sid cmd args =>
    let commandText := if args = "" then cmd else cmd ++ " " ++ args
    (handleMessageReplies env "terminal" sid commandText).map fun t =>
      .commandResponse t

/-! Daemon server framing (`src/daemon/server.ts`, `data` handler).  Each
socket carries a string buffer; a `data` event appends the decoded chunk,
splits on newlines, keeps the final segment as the new buffer, and processes
every completed line in order, skipping blank lines. -/

/-- Per-connection state: the partial-line buffer and whether the connection
is open.  The `data` handler never closes a connection; only the `close` and
`error` socket events discard per-connection state. -/
structure ConnState where
  buffer : List Char
  connOpen : Bool
  deriving DecidableEq, Repr

/-- Per-line processing of the `data` handler: decode the line
(`JSON.parse`, abstracted as `decode`) and dispatch it, or catch the parse
throw and write one `error` response. -/
def lineResponses (decode : List Char → Except String ClientMessage)
    (env : RouterEnv) (line : List Char) : List ServerMessage :=
  match decode line with
  | .ok m => handleClientMessage env m
  | .error e => [.error ("Parse error: " ++ e)]

/-- Model of one `data` event with an arbitrary per-line handler, at the
string level (after the per-chunk `Buffer.from(raw).toString()` decode, which
`dataEventBytes` below composes in): returns the successor connection state
and the concatenated per-line outputs of the completed non-blank lines, in
order. -/
def dataEvent (handleLine : List Char → List μ) (st : ConnState)
    (chunk : List Char) : ConnState × List μ :=
  let segs := splitNl (st.buffer ++ chunk)
  ({ st with buffer := segs.getLastD [] },
    ((segs.dropLast.filter fun l => !isBlank l).map handleLine).flatten)

/-- Fold of `dataEvent` over a sequence of `data` events, accumulating the
outputs in order. -/
def dataEvents (handleLine : List Char → List μ) (st : ConnState) :
    List (List Char) → ConnState × List μ
  | [] => (st, [])
  | chunk :: rest =>
    ((dataEvents handleLine (dataEvent handleLine st chunk).1 rest).1,
      (dataEvent handleLine st chunk).2 ++
        (dataEvents handleLine (dataEvent handleLine st chunk).1 rest).2)

/-- The full `data` handler of `startDaemonServer` for one event: per-line
decode-and-dispatch over the framing model. -/
def serverData (decode : List Char → Except String ClientMessage)
    (env : RouterEnv) (st : ConnState) (chunk : List Char) :
    ConnState × List ServerMessage :=
  dataEvent (lineResponses decode env) st chunk

/-- Router environment with inert external collaborators, used to instantiate
universally quantified theorems at concrete inputs. -/
def sampleEnv : RouterEnv where
  off := 0
  now := 0
  uuid := "uuid-1"
  sched := ⟨[], [], []⟩
  sessions := []
  hbEnabled := false
  hbRunning := false
  hbCronExpr := ""
  hbNextRun := none
  memoryIndex := ""
  search := fun _ => []
  agent := fun _ _ => .ok "hi there"
  isoString := fun _ => ""
  localeString := fun _ => ""
  syncOutcome := .ok ()
  installOutcome := fun _ => (true, "")
  statuses := []
  channels := []
  startTime := 0

/-- Concrete decoder standing in for `JSON.parse` when instantiating framing
theorems at concrete inputs: the line `x` is malformed, everything else
decodes to `ping`. -/
def toyDecode : List Char → Except String ClientMessage :=
  fun l => if l = ['x'] then .error "boom" else .ok .ping


/-! Byte-level chunk decoding (`media.ts:150`).  The socket hands the `data`
handler a raw byte `Buffer`, and the source decodes each chunk independently
with `Buffer.from(raw).toString()` before appending it to the string buffer.
V8's UTF-8 decoder follows the WHATWG encoding standard: a well-formed
sequence decodes to its scalar value, and a maximal ill-formed subpart
(including a sequence truncated at the end of the chunk) decodes to one
U+FFFD replacement character. -/

/-- UTF-8 continuation byte (`10xxxxxx`). -/
def isCont (b : Nat) : Bool := 128 ≤ b && b ≤ 191

/-- The U+FFFD replacement character emitted for ill-formed input. -/
def repl : Char := Char.ofNat 0xFFFD

/-- Lower bound of the byte after a multi-byte lead (WHATWG: `E0` tightens it
to `A0`, `F0` to `90`). -/
def cont1Lo (b : Nat) : Nat :=
  if b = 0xE0 then 0xA0 else if b = 0xF0 then 0x90 else 0x80

/-- Upper bound of the byte after a multi-byte lead (WHATWG: `ED` tightens it
to `9F`, `F4` to `8F`). -/
def cont1Hi (b : Nat) : Nat :=
  if b = 0xED then 0x9F else if b = 0xF4 then 0x8F else 0xBF

/-- Fueled WHATWG UTF-8 decoder; the fuel drops by one per decoded character,
so any fuel of at least the byte length evaluates the whole input (the fuel
keeps the recursion structural, exactly like the calendar iterators). -/
def utf8DecodeAux : Nat → List Nat → List Char
  | 0, _ => []
  | _ + 1, [] => []
  | fuel + 1, b :: bs =>
    if b ≤ 0x7F then Char.ofNat b :: utf8DecodeAux fuel bs
    else if 0xC2 ≤ b && b ≤ 0xDF then
      match bs with
      | [] => [repl]
      | b2 :: bs2 =>
        if isCont b2 then
          Char.ofNat ((b - 0xC0) * 64 + (b2 - 0x80)) :: utf8DecodeAux fuel bs2
        else repl :: utf8DecodeAux fuel bs
    else if 0xE0 ≤ b && b ≤ 0xEF then
      match bs with
      | [] => [repl]
      | b2 :: bs2 =>
        if cont1Lo b ≤ b2 && b2 ≤ cont1Hi b then
          match bs2 with
          | [] => [repl]
          | b3 :: bs3 =>
            if isCont b3 then
              Char.ofNat ((b - 0xE0) * 4096 + (b2 - 0x80) * 64 + (b3 - 0x80)) ::
                utf8DecodeAux fuel bs3
            else repl :: utf8DecodeAux fuel bs2
        else repl :: utf8DecodeAux fuel bs
    else if 0xF0 ≤ b && b ≤ 0xF4 then
      match bs with
      | [] => [repl]
      | b2 :: bs2 =>
        if cont1Lo b ≤ b2 && b2 ≤ cont1Hi b then
          match bs2 with
          | [] => [repl]
          | b3 :: bs3 =>
            if isCont b3 then
              match bs3 with
              | [] => [repl]
              | b4 :: bs4 =>
                if isCont b4 then
                  Char.ofNat ((b - 0xF0) * 262144 + (b2 - 0x80) * 4096 +
                    (b3 - 0x80) * 64 + (b4 - 0x80)) :: utf8DecodeAux fuel bs4
                else repl :: utf8DecodeAux fuel bs3
            else repl :: utf8DecodeAux fuel bs2
        else repl :: utf8DecodeAux fuel bs
    else repl :: utf8DecodeAux fuel bs

/-- Model of `Buffer.from(raw).toString()` on one chunk. -/
def utf8Decode (bs : List Nat) : List Char :=
  utf8DecodeAux bs.length bs

/-- UTF-8 encoding of one scalar value: the byte sequence the client's
`socket.write(...)` emits for the character. -/
def utf8EncodeChar (c : Char) : List Nat :=
  if c.toNat ≤ 0x7F then [c.toNat]
  else if c.toNat ≤ 0x7FF then [0xC0 + c.toNat / 64, 0x80 + c.toNat % 64]
  else if c.toNat ≤ 0xFFFF then
    [0xE0 + c.toNat / 4096, 0x80 + c.toNat / 64 % 64, 0x80 + c.toNat % 64]
  else
    [0xF0 + c.toNat / 262144, 0x80 + c.toNat / 4096 % 64,
      0x80 + c.toNat / 64 % 64, 0x80 + c.toNat % 64]

/-- UTF-8 encoding of a character stream. -/
def utf8Encode (s : List Char) : List Nat :=
  (s.map utf8EncodeChar).flatten

/-- One `data` event at the byte level: the raw chunk is decoded on its own
(`media.ts:150`) and only then appended to the string buffer. -/
def dataEventBytes {μ : Type} (handleLine : List Char → List μ)
    (st : ConnState) (raw : List Nat) : ConnState × List μ :=
  dataEvent handleLine st (utf8Decode raw)

/-- Fold of `dataEventBytes` over a sequence of raw byte chunks. -/
def dataEventsBytes {μ : Type} (handleLine : List Char → List μ)
    (st : ConnState) : List (List Nat) → ConnState × List μ
  | [] => (st, [])
  | raw :: rest =>
    ((dataEventsBytes handleLine (dataEventBytes handleLine st raw).1 rest).1,
      (dataEventBytes handleLine st raw).2 ++
        (dataEventsBytes handleLine (dataEventBytes handleLine st raw).1
          rest).2)

/-- The full `data` handler for one raw byte chunk. -/
def serverDataBytes (decode : List Char → Except String ClientMessage)
    (env : RouterEnv) (st : ConnState) (raw : List Nat) :
    ConnState × List ServerMessage :=
  dataEventBytes (lineResponses decode env) st raw

/-! ## Theorems -/

/-! Splitting lemmas shared by the session store and the socket framing. -/

theorem splitCh_ne_nil (sep : Char) (s : List Char) : splitCh sep s ≠ [] := by
  induction s with
  | nil => simp [splitCh]
  | cons c cs ih =>
    simp only [splitCh]
    split
    · simp
    · rcases h : splitCh sep cs with _ | ⟨s0, ss⟩
      · simp
      · simp [h]

theorem splitCh_nosep {sep : Char} {a : List Char} (h : sep ∉ a) :
    splitCh sep a = [a] := by
  induction a with
  | nil => rfl
  | cons c cs ih =>
    have hc : ¬c = sep := fun hc => h (hc ▸ List.mem_cons_self c cs)
    have hcs : sep ∉ cs := fun hm => h (List.mem_cons_of_mem c hm)
    simp only [splitCh, if_neg hc, ih hcs]

theorem splitCh_append_cons {sep : Char} {a : List Char} (rest : List Char)
    (h : sep ∉ a) :
    splitCh sep (a ++ sep :: rest) = a :: splitCh sep rest := by
  induction a with
  | nil => simp [splitCh]
  | cons c cs ih =>
    have hc : ¬c = sep := fun hc => h (hc ▸ List.mem_cons_self c cs)
    have hcs : sep ∉ cs := fun hm => h (List.mem_cons_of_mem c hm)
    simp only [List.cons_append, splitCh, if_neg hc, List.append_eq, ih hcs]

/-! Round-trip lemmas for the session record serializer. -/

theorem escChar_ne_nil (c : Char) : escChar c ≠ [] := by
  unfold escChar
  split <;> try simp
  split <;> try simp
  split <;> simp

theorem mem_escChar {x c : Char} (h : x ∈ escChar c) :
    x = '\\' ∨ x = 'n' ∨ x = 't' ∨ x = c := by
  unfold escChar at h
  split at h
  · simp at h
    tauto
  · split at h
    · simp at h
      tauto
    · split at h
      · simp at h
        tauto
      · simp at h
        tauto

theorem escField_no_nl {s : List Char} : '\n' ∉ escField s := by
  intro hmem
  rcases List.mem_flatMap.mp hmem with ⟨c, hc, hx⟩
  rcases mem_escChar hx with h | h | h | h
  · exact absurd h (by decide)
  · exact absurd h (by decide)
  · exact absurd h (by decide)
  · cases h
    exact absurd hx (by decide)

theorem escField_no_tab {s : List Char} : '\t' ∉ escField s := by
  intro hmem
  rcases List.mem_flatMap.mp hmem with ⟨c, hc, hx⟩
  rcases mem_escChar hx with h | h | h | h
  · exact absurd h (by decide)
  · exact absurd h (by decide)
  · exact absurd h (by decide)
  · cases h
    exact absurd hx (by decide)

theorem unescField_esc_pair (d : Char) (rest : List Char) :
    unescField ('\\' :: d :: rest) =
      (if d = 'n' then '\n' else if d = 't' then '\t' else d) ::
        unescField rest := by
  simp [unescField]

theorem unescField_cons_of_ne {c : Char} (h : ¬c = '\\') (d : Char)
    (rest : List Char) :
    unescField (c :: d :: rest) = c :: unescField (d :: rest) := by
  simp [unescField, if_neg h]

theorem unescField_escField (s : List Char) :
    unescField (escField s) = s := by
  induction s with
  | nil => rfl
  | cons c cs ih =>
    show unescField (escChar c ++ escField cs) = c :: cs
    by_cases h1 : c = '\\'
    · subst h1
      show unescField ('\\' :: '\\' :: escField cs) = _
      rw [unescField_esc_pair, if_neg (by decide), if_neg (by decide), ih]
    · by_cases h2 : c = '\n'
      · subst h2
        show unescField ('\\' :: 'n' :: escField cs) = _
        rw [unescField_esc_pair, if_pos rfl, ih]
      · by_cases h3 : c = '\t'
        · subst h3
          show unescField ('\\' :: 't' :: escField cs) = _
          rw [unescField_esc_pair, if_neg (by decide), if_pos rfl, ih]
        · have hesc : escChar c ++ escField cs = c :: escField cs := by
            simp [escChar, if_neg h1, if_neg h2, if_neg h3]
          rw [hesc]
          cases hcs : escField cs with
          | nil =>
            have hnil : cs = [] := by
              cases cs with
              | nil => rfl
              | cons d ds =>
                exfalso
                have habs : escChar d ++ escField ds = [] := hcs
                rcases List.append_eq_nil.mp habs with ⟨hd, _⟩
                exact escChar_ne_nil d hd
            subst hnil
            rfl
          | cons e es =>
            rw [unescField_cons_of_ne h1, ← hcs, ih]

theorem digitChar_ne_tab {d : Nat} (hd : d < 10) :
    Char.ofNat (48 + d) ≠ '\t' := by
  interval_cases d <;> decide

theorem digitChar_ne_nl {d : Nat} (hd : d < 10) :
    Char.ofNat (48 + d) ≠ '\n' := by
  interval_cases d <;> decide

theorem digitChar_toNat {d : Nat} (hd : d < 10) :
    (Char.ofNat (48 + d)).toNat - 48 = d := by
  interval_cases d <;> decide

theorem natChars_no_tab {n : Nat} : '\t' ∉ natChars n := by
  intro hmem
  rcases List.mem_map.mp hmem with ⟨d, hd, hx⟩
  exact digitChar_ne_tab (Nat.digits_lt_base (by norm_num) hd) hx

theorem natChars_no_nl {n : Nat} : '\n' ∉ natChars n := by
  intro hmem
  rcases List.mem_map.mp hmem with ⟨d, hd, hx⟩
  exact digitChar_ne_nl (Nat.digits_lt_base (by norm_num) hd) hx

theorem charsNat_natChars (n : Nat) : charsNat (natChars n) = n := by
  unfold charsNat natChars
  rw [List.map_map]
  have : ((fun c => c.toNat - 48) ∘ fun d => Char.ofNat (48 + d)) =
      fun d : Nat => (Char.ofNat (48 + d)).toNat - 48 := rfl
  rw [this]
  have hmap : ∀ l : List Nat, (∀ d ∈ l, d < 10) →
      l.map (fun d => (Char.ofNat (48 + d)).toNat - 48) = l := by
    intro l hl
    induction l with
    | nil => rfl
    | cons d ds ih =>
      simp only [List.map_cons]
      rw [digitChar_toNat (hl d (List.mem_cons_self d ds)),
        ih fun x hx => hl x (List.mem_cons_of_mem d hx)]
  rw [hmap _ fun d hd => Nat.digits_lt_base (by norm_num) hd]
  exact Nat.ofDigits_digits 10 n

theorem encOpt_no_tab {o : Option String} : '\t' ∉ encOpt o := by
  cases o with
  | none => decide
  | some s =>
    intro hmem
    rcases List.mem_cons.mp hmem with h | h
    · exact absurd h (by decide)
    · exact escField_no_tab h

theorem encOpt_no_nl {o : Option String} : '\n' ∉ encOpt o := by
  cases o with
  | none => decide
  | some s =>
    intro hmem
    rcases List.mem_cons.mp hmem with h | h
    · exact absurd h (by decide)
    · exact escField_no_nl h

theorem roleChar_ne_tab (r : Role) : roleChar r ≠ '\t' := by
  cases r <;> decide

theorem asString_data (s : String) : s.data.asString = s :=
  String.asString_toList s

theorem decOpt_encOpt (o : Option String) : decOpt (encOpt o) = o := by
  cases o with
  | none => rfl
  | some s =>
    show decOpt ('c' :: escField s.data) = some s
    simp [decOpt, unescField_escField, asString_data]

theorem splitCh_encodeMsg (m : SessionMessage) :
    splitCh '\t' (encodeMsg m) =
      [[roleChar m.role], escField m.content.data, natChars m.timestamp,
        encOpt m.channel, encOpt m.sender] := by
  have hform : encodeMsg m =
      [roleChar m.role] ++ '\t' :: (escField m.content.data ++
        '\t' :: (natChars m.timestamp ++
        '\t' :: (encOpt m.channel ++ '\t' :: encOpt m.sender))) := by
    simp [encodeMsg]
  have hrc : '\t' ∉ [roleChar m.role] := by
    intro h
    rcases List.mem_cons.mp h with h | h
    · exact roleChar_ne_tab m.role h.symm
    · simp at h
  rw [hform, splitCh_append_cons _ hrc,
    splitCh_append_cons _ escField_no_tab,
    splitCh_append_cons _ natChars_no_tab,
    splitCh_append_cons _ encOpt_no_tab,
    splitCh_nosep encOpt_no_tab]

theorem decodeMsg_encodeMsg (m : SessionMessage) :
    decodeMsg (encodeMsg m) = m := by
  unfold decodeMsg
  rw [splitCh_encodeMsg]
  simp only [List.headD_cons]
  have hrole : charRole (roleChar m.role) = m.role := by
    cases m.role <;> rfl
  rw [hrole, unescField_escField, asString_data, charsNat_natChars,
    decOpt_encOpt, decOpt_encOpt]

theorem encodeMsg_no_nl (m : SessionMessage) : '\n' ∉ encodeMsg m := by
  intro hmem
  unfold encodeMsg at hmem
  simp only [List.cons_append, List.mem_cons, List.mem_append] at hmem
  have h1 := @escField_no_nl m.content.data
  have h2 := @natChars_no_nl m.timestamp
  have h3 := @encOpt_no_nl m.channel
  have h4 := @encOpt_no_nl m.sender
  have h5 : ¬('\n' = roleChar m.role) := by
    cases m.role <;> decide
  have h6 : ¬('\n' = '\t') := by decide
  tauto

theorem encodeMsg_not_blank (m : SessionMessage) :
    isBlank (encodeMsg m) = false := by
  unfold encodeMsg isBlank
  simp only [List.cons_append, List.all_cons, Bool.and_eq_false_iff]
  left
  cases m.role <;> decide

theorem splitCh_cons_ne {c sep : Char} (h : ¬c = sep) (cs : List Char) :
    splitCh sep (c :: cs) =
      (c :: (splitCh sep cs).headD []) :: (splitCh sep cs).tail := by
  simp only [splitCh, if_neg h]
  rcases hsp : splitCh sep cs with _ | ⟨s0, ss⟩
  · exact absurd hsp (splitCh_ne_nil sep cs)
  · rfl

theorem splitCh_all_no_sep (sep : Char) (s : List Char) :
    ∀ l ∈ splitCh sep s, sep ∉ l := by
  induction s with
  | nil =>
    intro l hl
    rcases List.mem_cons.mp hl with rfl | hl
    · simp
    · simp at hl
  | cons c cs ih =>
    intro l hl
    by_cases hc : c = sep
    · subst hc
      simp only [splitCh, if_pos rfl] at hl
      rcases List.mem_cons.mp hl with rfl | hl
      · simp
      · exact ih l hl
    · rw [splitCh_cons_ne hc] at hl
      rcases List.mem_cons.mp hl with rfl | hl
      · intro hmem
        rcases List.mem_cons.mp hmem with h | h
        · exact hc h.symm
        · rcases hsp : splitCh sep cs with _ | ⟨s0, ss⟩
          · exact absurd hsp (splitCh_ne_nil sep cs)
          · rw [hsp] at h
            exact ih s0 (hsp ▸ List.mem_cons_self s0 ss) h
      · rcases hsp : splitCh sep cs with _ | ⟨s0, ss⟩
        · exact absurd hsp (splitCh_ne_nil sep cs)
        · rw [hsp] at hl
          exact ih l (hsp ▸ List.mem_cons_of_mem s0 hl)

theorem splitCh_append_left {sep : Char} {b : List Char} (h : sep ∉ b)
    (s : List Char) :
    splitCh sep (b ++ s) =
      (b ++ (splitCh sep s).headD []) :: (splitCh sep s).tail := by
  induction b with
  | nil =>
    rcases hsp : splitCh sep s with _ | ⟨s0, ss⟩
    · exact absurd hsp (splitCh_ne_nil sep s)
    · simp [hsp]
  | cons c cs ih =>
    have hc : ¬c = sep := fun hc => h (hc ▸ List.mem_cons_self c cs)
    have hcs : sep ∉ cs := fun hm => h (List.mem_cons_of_mem c hm)
    rw [List.cons_append, splitCh_cons_ne hc, ih hcs]
    rfl

theorem mem_of_getLastD {α : Type} {l : List α} (h : l ≠ []) (d : α) :
    l.getLastD d ∈ l := by
  induction l with
  | nil => exact absurd rfl h
  | cons a t ih =>
    cases t with
    | nil => exact List.mem_cons_self _ _
    | cons b u =>
      exact List.mem_cons_of_mem a (ih (by simp))

/-! Framing composition: one `data` event over concatenated chunks does the
same as consecutive `data` events over the pieces. -/

theorem dataEvent_nil {μ : Type} (handle : List Char → List μ)
    (st : ConnState) (h : '\n' ∉ st.buffer) :
    dataEvent handle st [] = (st, []) := by
  unfold dataEvent splitNl
  rw [List.append_nil, splitCh_nosep h]
  rfl

theorem dataEvent_shift {μ : Type} (handle : List Char → List μ)
    (st : ConnState) (c : Char) (rest : List Char) :
    dataEvent handle st (c :: rest) =
      dataEvent handle { st with buffer := st.buffer ++ [c] } rest := by
  unfold dataEvent
  rw [show st.buffer ++ c :: rest =
    (st.buffer ++ [c]) ++ rest by simp]

theorem dataEvent_newline {μ : Type} (handle : List Char → List μ)
    (st : ConnState) (rest : List Char) (h : '\n' ∉ st.buffer) :
    dataEvent handle st ('\n' :: rest) =
      ((dataEvent handle ⟨[], st.connOpen⟩ rest).1,
        (if isBlank st.buffer then [] else handle st.buffer) ++
          (dataEvent handle ⟨[], st.connOpen⟩ rest).2) := by
  unfold dataEvent splitNl
  rw [splitCh_append_cons _ h, List.nil_append]
  rcases hsp : splitCh '\n' rest with _ | ⟨s0, ss⟩
  · exact absurd hsp (splitCh_ne_nil '\n' rest)
  · cases hbl : isBlank st.buffer with
    | true => simp [hbl]
    | false => simp [hbl]

theorem dataEvent_buffer_no_nl {μ : Type} (handle : List Char → List μ)
    (st : ConnState) (chunk : List Char) :
    '\n' ∉ (dataEvent handle st chunk).1.buffer := by
  unfold dataEvent splitNl
  rcases hsp : splitCh '\n' (st.buffer ++ chunk) with _ | ⟨s0, ss⟩
  · exact absurd hsp (splitCh_ne_nil '\n' (st.buffer ++ chunk))
  · have hall := splitCh_all_no_sep '\n' (st.buffer ++ chunk)
    rw [hsp] at hall
    exact hall _ (mem_of_getLastD (by simp) [])

theorem dataEvent_append {μ : Type} (handle : List Char → List μ) :
    ∀ (a : List Char) (st : ConnState) (b : List Char),
      '\n' ∉ st.buffer →
      dataEvent handle st (a ++ b) =
        ((dataEvent handle (dataEvent handle st a).1 b).1,
          (dataEvent handle st a).2 ++
            (dataEvent handle (dataEvent handle st a).1 b).2) := by
  intro a
  induction a with
  | nil =>
    intro st b h
    rw [List.nil_append, dataEvent_nil handle st h]
    simp
  | cons c cs ih =>
    intro st b h
    by_cases hc : c = '\n'
    · subst hc
      rw [List.cons_append, dataEvent_newline handle st (cs ++ b) h,
        dataEvent_newline handle st cs h,
        ih ⟨[], st.connOpen⟩ b (by simp)]
      simp [List.append_assoc]
    · have hbuf : '\n' ∉ st.buffer ++ [c] := by
        intro hm
        rcases List.mem_append.mp hm with hm | hm
        · exact h hm
        · rcases List.mem_cons.mp hm with hm | hm
          · exact hc hm.symm
          · simp at hm
      rw [List.cons_append, dataEvent_shift handle st c (cs ++ b),
        dataEvent_shift handle st c cs,
        ih { st with buffer := st.buffer ++ [c] } b hbuf]

theorem dataEvents_flatten {μ : Type} (handle : List Char → List μ) :
    ∀ (chunks : List (List Char)) (st : ConnState),
      '\n' ∉ st.buffer →
      dataEvents handle st chunks = dataEvent handle st chunks.flatten := by
  intro chunks
  induction chunks with
  | nil =>
    intro st h
    rw [List.flatten_nil, dataEvent_nil handle st h]
    rfl
  | cons c rest ih =>
    intro st h
    rw [List.flatten_cons, dataEvent_append handle c st rest.flatten h]
    simp only [dataEvents]
    rw [ih (dataEvent handle st c).1 (dataEvent_buffer_no_nl handle st c)]

theorem dataEvent_single_line {μ : Type} (handle : List Char → List μ)
    (o : Bool) (l : List Char) (hnl : '\n' ∉ l) (hnb : isBlank l = false) :
    dataEvent handle ⟨[], o⟩ (l ++ ['\n']) = (⟨[], o⟩, handle l) := by
  unfold dataEvent splitNl
  show (let segs := splitCh '\n' ([] ++ (l ++ '\n' :: []));
    (({ buffer := segs.getLastD [], connOpen := o } : ConnState),
      (List.map handle (List.filter (fun x => !isBlank x) segs.dropLast)).flatten)) = _
  rw [List.nil_append, splitCh_append_cons _ hnl]
  simp [hnb, splitCh]

/-! UTF-8 codec lemmas: the WHATWG decoder inverts the encoder, so chunk
boundaries that respect character boundaries decode transparently. -/

/-- A `Char` is a Unicode scalar value: below the surrogate range or between
it and `0x110000`. -/
theorem char_valid_nat (c : Char) :
    c.toNat < 0xD800 ∨ (0xDFFF < c.toNat ∧ c.toNat < 0x110000) := by
  rcases c.valid with h | ⟨h1, h2⟩
  · exact Or.inl h
  · exact Or.inr ⟨h1, h2⟩

theorem utf8DecodeAux_encodeChar (c : Char) (rest : List Nat) (fuel : Nat) :
    utf8DecodeAux (fuel + 1) (utf8EncodeChar c ++ rest) =
      c :: utf8DecodeAux fuel rest := by
  have hv := char_valid_nat c
  have hofn : Char.ofNat c.toNat = c := Char.ofNat_toNat c
  unfold utf8EncodeChar
  by_cases h1 : c.toNat ≤ 0x7F
  · rw [if_pos h1]
    show utf8DecodeAux (fuel + 1) (c.toNat :: rest) = _
    conv_lhs => unfold utf8DecodeAux
    rw [if_pos h1, hofn]
  · rw [if_neg h1]
    by_cases h2 : c.toNat ≤ 0x7FF
    · rw [if_pos h2]
      show utf8DecodeAux (fuel + 1)
        ((0xC0 + c.toNat / 64) :: (0x80 + c.toNat % 64) :: rest) = _
      conv_lhs => unfold utf8DecodeAux
      rw [if_neg (by omega)]
      rw [if_pos (show (decide (0xC2 ≤ 0xC0 + c.toNat / 64) &&
        decide (0xC0 + c.toNat / 64 ≤ 0xDF)) = true by
        simp only [Bool.and_eq_true, decide_eq_true_eq]
        omega)]
      show (if isCont (0x80 + c.toNat % 64) = true then
        Char.ofNat ((0xC0 + c.toNat / 64 - 0xC0) * 64 +
          (0x80 + c.toNat % 64 - 0x80)) :: utf8DecodeAux fuel rest
        else repl :: utf8DecodeAux fuel ((0x80 + c.toNat % 64) :: rest)) = _
      rw [if_pos (show isCont (0x80 + c.toNat % 64) = true by
        simp only [isCont, Bool.and_eq_true, decide_eq_true_eq]
        omega)]
      rw [show (0xC0 + c.toNat / 64 - 0xC0) * 64 +
        (0x80 + c.toNat % 64 - 0x80) = c.toNat by omega]
      rw [hofn]
    · rw [if_neg h2]
      by_cases h3 : c.toNat ≤ 0xFFFF
      · rw [if_pos h3]
        show utf8DecodeAux (fuel + 1) ((0xE0 + c.toNat / 4096) ::
          (0x80 + c.toNat / 64 % 64) :: (0x80 + c.toNat % 64) :: rest) = _
        conv_lhs => unfold utf8DecodeAux
        rw [if_neg (by omega)]
        rw [if_neg (show ¬((decide (0xC2 ≤ 0xE0 + c.toNat / 4096) &&
          decide (0xE0 + c.toNat / 4096 ≤ 0xDF)) = true) by
          simp only [Bool.and_eq_true, decide_eq_true_eq]
          omega)]
        rw [if_pos (show (decide (0xE0 ≤ 0xE0 + c.toNat / 4096) &&
          decide (0xE0 + c.toNat / 4096 ≤ 0xEF)) = true by
          simp only [Bool.and_eq_true, decide_eq_true_eq]
          omega)]
        have hlo : cont1Lo (0xE0 + c.toNat / 4096) ≤ 0x80 + c.toNat / 64 % 64 := by
          unfold cont1Lo
          split
          · omega
          · split
            · omega
            · omega
        have hhi : 0x80 + c.toNat / 64 % 64 ≤ cont1Hi (0xE0 + c.toNat / 4096) := by
          unfold cont1Hi
          split
          · omega
          · split
            · omega
            · omega
        show (if (decide (cont1Lo (0xE0 + c.toNat / 4096) ≤
            0x80 + c.toNat / 64 % 64) &&
            decide (0x80 + c.toNat / 64 % 64 ≤
              cont1Hi (0xE0 + c.toNat / 4096))) = true then
          (match ((0x80 + c.toNat % 64) :: rest : List Nat) with
            | [] => [repl]
            | b3 :: bs3 =>
              if isCont b3 = true then
                Char.ofNat ((0xE0 + c.toNat / 4096 - 0xE0) * 4096 +
                  (0x80 + c.toNat / 64 % 64 - 0x80) * 64 + (b3 - 0x80)) ::
                  utf8DecodeAux fuel bs3
              else repl :: utf8DecodeAux fuel ((0x80 + c.toNat % 64) :: rest))
          else repl :: utf8DecodeAux fuel ((0x80 + c.toNat / 64 % 64) ::
            (0x80 + c.toNat % 64) :: rest)) = _
        rw [if_pos (show (decide (cont1Lo (0xE0 + c.toNat / 4096) ≤
            0x80 + c.toNat / 64 % 64) &&
            decide (0x80 + c.toNat / 64 % 64 ≤
              cont1Hi (0xE0 + c.toNat / 4096))) = true by
          simp only [Bool.and_eq_true, decide_eq_true_eq]
          exact ⟨hlo, hhi⟩)]
        show (if isCont (0x80 + c.toNat % 64) = true then
          Char.ofNat ((0xE0 + c.toNat / 4096 - 0xE0) * 4096 +
            (0x80 + c.toNat / 64 % 64 - 0x80) * 64 +
            (0x80 + c.toNat % 64 - 0x80)) :: utf8DecodeAux fuel rest
          else repl :: utf8DecodeAux fuel ((0x80 + c.toNat % 64) :: rest)) = _
        rw [if_pos (show isCont (0x80 + c.toNat % 64) = true by
          simp only [isCont, Bool.and_eq_true, decide_eq_true_eq]
          omega)]
        rw [show (0xE0 + c.toNat / 4096 - 0xE0) * 4096 +
          (0x80 + c.toNat / 64 % 64 - 0x80) * 64 +
          (0x80 + c.toNat % 64 - 0x80) = c.toNat by omega]
        rw [hofn]
      · rw [if_neg h3]
        show utf8DecodeAux (fuel + 1) ((0xF0 + c.toNat / 262144) ::
          (0x80 + c.toNat / 4096 % 64) :: (0x80 + c.toNat / 64 % 64) ::
          (0x80 + c.toNat % 64) :: rest) = _
        conv_lhs => unfold utf8DecodeAux
        rw [if_neg (by omega)]
        rw [if_neg (show ¬((decide (0xC2 ≤ 0xF0 + c.toNat / 262144) &&
          decide (0xF0 + c.toNat / 262144 ≤ 0xDF)) = true) by
          simp only [Bool.and_eq_true, decide_eq_true_eq]
          omega)]
        rw [if_neg (show ¬((decide (0xE0 ≤ 0xF0 + c.toNat / 262144) &&
          decide (0xF0 + c.toNat / 262144 ≤ 0xEF)) = true) by
          simp only [Bool.and_eq_true, decide_eq_true_eq]
          omega)]
        rw [if_pos (show (decide (0xF0 ≤ 0xF0 + c.toNat / 262144) &&
          decide (0xF0 + c.toNat / 262144 ≤ 0xF4)) = true by
          simp only [Bool.and_eq_true, decide_eq_true_eq]
          omega)]
        have hlo : cont1Lo (0xF0 + c.toNat / 262144) ≤
            0x80 + c.toNat / 4096 % 64 := by
          unfold cont1Lo
          split
          · omega
          · split
            · omega
            · omega
        have hhi : 0x80 + c.toNat / 4096 % 64 ≤
            cont1Hi (0xF0 + c.toNat / 262144) := by
          unfold cont1Hi
          split
          · omega
          · split
            · omega
            · omega
        show (if (decide (cont1Lo (0xF0 + c.toNat / 262144) ≤
            0x80 + c.toNat / 4096 % 64) &&
            decide (0x80 + c.toNat / 4096 % 64 ≤
              cont1Hi (0xF0 + c.toNat / 262144))) = true then
          (match ((0x80 + c.toNat / 64 % 64) :: (0x80 + c.toNat % 64) ::
              rest : List Nat) with
            | [] => [repl]
            | b3 :: bs3 =>
              if isCont b3 = true then
                (match bs3 with
                  | [] => [repl]
                  | b4 :: bs4 =>
                    if isCont b4 = true then
                      Char.ofNat ((0xF0 + c.toNat / 262144 - 0xF0) * 262144 +
                        (0x80 + c.toNat / 4096 % 64 - 0x80) * 4096 +
                        (b3 - 0x80) * 64 + (b4 - 0x80)) ::
                        utf8DecodeAux fuel bs4
                    else repl :: utf8DecodeAux fuel bs3)
              else repl :: utf8DecodeAux fuel ((0x80 + c.toNat / 64 % 64) ::
                (0x80 + c.toNat % 64) :: rest))
          else repl :: utf8DecodeAux fuel ((0x80 + c.toNat / 4096 % 64) ::
            (0x80 + c.toNat / 64 % 64) :: (0x80 + c.toNat % 64) :: rest)) = _
        rw [if_pos (show (decide (cont1Lo (0xF0 + c.toNat / 262144) ≤
            0x80 + c.toNat / 4096 % 64) &&
            decide (0x80 + c.toNat / 4096 % 64 ≤
              cont1Hi (0xF0 + c.toNat / 262144))) = true by
          simp only [Bool.and_eq_true, decide_eq_true_eq]
          exact ⟨hlo, hhi⟩)]
        show (if isCont (0x80 + c.toNat / 64 % 64) = true then
          (match ((0x80 + c.toNat % 64) :: rest : List Nat) with
            | [] => [repl]
            | b4 :: bs4 =>
              if isCont b4 = true then
                Char.ofNat ((0xF0 + c.toNat / 262144 - 0xF0) * 262144 +
                  (0x80 + c.toNat / 4096 % 64 - 0x80) * 4096 +
                  (0x80 + c.toNat / 64 % 64 - 0x80) * 64 + (b4 - 0x80)) ::
                  utf8DecodeAux fuel bs4
              else repl :: utf8DecodeAux fuel ((0x80 + c.toNat % 64) :: rest))
          else repl :: utf8DecodeAux fuel ((0x80 + c.toNat / 64 % 64) ::
            (0x80 + c.toNat % 64) :: rest)) = _
        rw [if_pos (show isCont (0x80 + c.toNat / 64 % 64) = true by
          simp only [isCont, Bool.and_eq_true, decide_eq_true_eq]
          omega)]
        show (if isCont (0x80 + c.toNat % 64) = true then
          Char.ofNat ((0xF0 + c.toNat / 262144 - 0xF0) * 262144 +
            (0x80 + c.toNat / 4096 % 64 - 0x80) * 4096 +
            (0x80 + c.toNat / 64 % 64 - 0x80) * 64 +
            (0x80 + c.toNat % 64 - 0x80)) :: utf8DecodeAux fuel rest
          else repl :: utf8DecodeAux fuel ((0x80 + c.toNat % 64) :: rest)) = _
        rw [if_pos (show isCont (0x80 + c.toNat % 64) = true by
          simp only [isCont, Bool.and_eq_true, decide_eq_true_eq]
          omega)]
        rw [show (0xF0 + c.toNat / 262144 - 0xF0) * 262144 +
          (0x80 + c.toNat / 4096 % 64 - 0x80) * 4096 +
          (0x80 + c.toNat / 64 % 64 - 0x80) * 64 +
          (0x80 + c.toNat % 64 - 0x80) = c.toNat by omega]
        rw [hofn]

theorem utf8DecodeAux_encode (s : List Char) :
    ∀ fuel, s.length ≤ fuel → utf8DecodeAux fuel (utf8Encode s) = s := by
  induction s with
  | nil =>
    intro fuel _
    show utf8DecodeAux fuel [] = []
    cases fuel <;> rfl
  | cons c cs ih =>
    intro fuel h
    obtain ⟨f, rfl⟩ : ∃ f, fuel = f + 1 := ⟨fuel - 1, by simp at h; omega⟩
    show utf8DecodeAux (f + 1) (utf8EncodeChar c ++ utf8Encode cs) = c :: cs
    rw [utf8DecodeAux_encodeChar, ih f (by simpa using h)]

theorem utf8EncodeChar_length_pos (c : Char) :
    1 ≤ (utf8EncodeChar c).length := by
  unfold utf8EncodeChar
  split
  · simp
  · split
    · simp
    · split
      · simp
      · simp

theorem length_le_length_utf8Encode (s : List Char) :
    s.length ≤ (utf8Encode s).length := by
  induction s with
  | nil => simp [utf8Encode]
  | cons c cs ih =>
    show (c :: cs).length ≤ (utf8EncodeChar c ++ utf8Encode cs).length
    rw [List.length_append, List.length_cons]
    have := utf8EncodeChar_length_pos c
    omega

/-- Per-chunk decode inverts the encoder: a chunk that is the encoding of a
character sequence decodes back to that sequence. -/
theorem utf8Decode_utf8Encode (s : List Char) :
    utf8Decode (utf8Encode s) = s :=
  utf8DecodeAux_encode s (utf8Encode s).length (length_le_length_utf8Encode s)

theorem dataEventsBytes_eq_dataEvents {μ : Type} (handle : List Char → List μ)
    (st : ConnState) (raws : List (List Nat)) :
    dataEventsBytes handle st raws =
      dataEvents handle st (raws.map utf8Decode) := by
  induction raws generalizing st with
  | nil => rfl
  | cons r rs ih =>
    simp only [dataEventsBytes, dataEvents, List.map_cons, dataEventBytes]
    rw [ih]
/-- C2 (amended): for every stream and every partition whose chunk boundaries
fall on character boundaries (each raw chunk is the UTF-8 encoding of a piece
of the character stream), the daemon server dispatches the same sequence of
decoded messages — and writes the same sequence of responses — as when the
whole encoded stream arrives in one chunk, ending in the same connection
state.  At arbitrary byte boundaries the invariance fails: see the
counterexample. -/
theorem C2_char_boundary_invariance
    (decode : List Char → Except String ClientMessage) (env : RouterEnv)
    (chunks : List (List Char)) :
    dataEventsBytes (lineResponses decode env) ⟨[], true⟩
        (chunks.map utf8Encode) =
      serverDataBytes decode env ⟨[], true⟩ (utf8Encode chunks.flatten) ∧
    dataEventsBytes (fun l => [decode l]) ⟨[], true⟩ (chunks.map utf8Encode) =
      dataEventBytes (fun l => [decode l]) ⟨[], true⟩
        (utf8Encode chunks.flatten) := by
  have hmap : (chunks.map utf8Encode).map utf8Decode = chunks := by
    induction chunks with
    | nil => rfl
    | cons a as ih => simp only [List.map_cons, utf8Decode_utf8Encode, ih]
  constructor
  · show dataEventsBytes (lineResponses decode env) ⟨[], true⟩
        (chunks.map utf8Encode) =
      dataEvent (lineResponses decode env) ⟨[], true⟩
        (utf8Decode (utf8Encode chunks.flatten))
    rw [dataEventsBytes_eq_dataEvents, hmap, utf8Decode_utf8Encode]
    exact dataEvents_flatten _ chunks ⟨[], true⟩ (by simp)
  · show dataEventsBytes (fun l => [decode l]) ⟨[], true⟩
        (chunks.map utf8Encode) =
      dataEvent (fun l => [decode l]) ⟨[], true⟩
        (utf8Decode (utf8Encode chunks.flatten))
    rw [dataEventsBytes_eq_dataEvents, hmap, utf8Decode_utf8Encode]
    exact dataEvents_flatten _ chunks ⟨[], true⟩ (by simp)

/-- C2 counterexample: the original claim fails at intra-character byte
boundaries.  The stream `"é\n"` encodes to the bytes `C3 A9 0A`; split
between `C3` and `A9`, each chunk is decoded on its own
(`Buffer.from(raw).toString()`, `media.ts:150`), so the two halves of `é`
each become U+FFFD and the completed line handed to `JSON.parse` is
`[U+FFFD, U+FFFD]`, while the single-chunk delivery hands it `['é']` — a
different dispatched sequence. -/
theorem C2_counterexample :
    ([0xC3] ++ [0xA9, 0x0A] : List Nat) = utf8Encode ['é', '\n'] ∧
    (dataEventBytes (fun l => [l]) ⟨[], true⟩
      (utf8Encode ['é', '\n'])).2 = [['é']] ∧
    (dataEventsBytes (fun l => [l]) ⟨[], true⟩ [[0xC3], [0xA9, 0x0A]]).2 =
      [[repl, repl]] ∧
    (dataEventsBytes (fun l => [l]) ⟨[], true⟩ [[0xC3], [0xA9, 0x0A]]).2 ≠
      (dataEventBytes (fun l => [l]) ⟨[], true⟩ (utf8Encode ['é', '\n'])).2 := by
  refine ⟨by decide, by decide, by decide, by decide⟩

/-- C6 counterexample: a whitespace-only complete line is unparseable as
JSON (`JSON.parse(" ")` throws), yet `if (!line.trim()) continue`
(`media.ts:157`) skips it before it ever reaches `JSON.parse`, so the daemon
writes zero responses for it — not exactly one `error`.  The decoder here
rejects every line, as `JSON.parse` does on whitespace; it is never consulted.
The connection state is unchanged. -/
theorem C6_counterexample :
    serverData (fun _ => .error "Unexpected end of JSON input") sampleEnv
      ⟨[], true⟩ ([' '] ++ ['\n']) = (⟨[], true⟩, []) ∧
    (serverData (fun _ => .error "Unexpected end of JSON input") sampleEnv
      ⟨[], true⟩ ([' '] ++ ['\n'])).2.length ≠ 1 :=
  ⟨rfl, by decide⟩

/-- C6 (amended): a malformed (undecodable) complete line that is not
whitespace-only yields exactly one `error` response; the connection stays
open with an empty buffer, and a subsequent valid line on the same connection
is dispatched exactly as on a fresh connection.  Blank lines are skipped with
no response at all — see the counterexample. -/
theorem C6_malformed_line_isolated
    (decode : List Char → Except String ClientMessage) (env : RouterEnv)
    (bad good : List Char) (e : String) (m : ClientMessage)
    (hbad : decode bad = .error e) (hbadnb : isBlank bad = false)
    (hbadnl : '\n' ∉ bad)
    (hgood : decode good = .ok m) (hgoodnb : isBlank good = false)
    (hgoodnl : '\n' ∉ good) :
    serverData decode env ⟨[], true⟩ (bad ++ ['\n']) =
      (⟨[], true⟩, [.error ("Parse error: " ++ e)]) ∧
    serverData decode env
      (serverData decode env ⟨[], true⟩ (bad ++ ['\n'])).1 (good ++ ['\n']) =
      (⟨[], true⟩, handleClientMessage env m) := by
  have h1 : serverData decode env ⟨[], true⟩ (bad ++ ['\n']) =
      (⟨[], true⟩, [.error ("Parse error: " ++ e)]) := by
    unfold serverData
    rw [dataEvent_single_line _ true bad hbadnl hbadnb]
    unfold lineResponses
    rw [hbad]
  refine ⟨h1, ?_⟩
  rw [h1]
  unfold serverData
  rw [dataEvent_single_line _ true good hgoodnl hgoodnb]
  unfold lineResponses
  rw [hgood]

/-- Witness for C6 with the toy decoder: the malformed line `x` and the valid
line `p` on one connection. -/
theorem C6_witness :
    serverData toyDecode sampleEnv ⟨[], true⟩ (['x'] ++ ['\n']) =
      (⟨[], true⟩, [.error ("Parse error: " ++ "boom")]) ∧
    serverData toyDecode sampleEnv
      (serverData toyDecode sampleEnv ⟨[], true⟩ (['x'] ++ ['\n'])).1
      (['p'] ++ ['\n']) =
      (⟨[], true⟩, handleClientMessage sampleEnv .ping) :=
  C6_malformed_line_isolated toyDecode sampleEnv ['x'] ['p'] "boom" .ping
    (by simp [toyDecode]) (by decide) (by decide)
    (by simp [toyDecode]) (by decide) (by decide)

theorem foldl_appendMessage (msgs : List SessionMessage) (content : List Char) :
    msgs.foldl appendMessage (some content) =
      some (content ++ (msgs.map fun m => encodeMsg m ++ ['\n']).flatten) := by
  induction msgs generalizing content with
  | nil => simp
  | cons m ms ih =>
    simp only [List.foldl_cons, List.map_cons, List.flatten_cons]
    have hstep : appendMessage (some content) m =
        some (content ++ (encodeMsg m ++ ['\n'])) := by
      simp [appendMessage]
    rw [hstep, ih]
    simp

theorem foldl_appendMessage_cons (m : SessionMessage)
    (ms : List SessionMessage) :
    (m :: ms).foldl appendMessage none =
      some (((m :: ms).map fun x => encodeMsg x ++ ['\n']).flatten) := by
  simp only [List.foldl_cons]
  have hstep : appendMessage none m = some (encodeMsg m ++ ['\n']) := by
    simp [appendMessage]
  rw [hstep, foldl_appendMessage]
  simp

theorem splitNl_records (lines : List (List Char))
    (h : ∀ l ∈ lines, '\n' ∉ l) :
    splitNl ((lines.map fun l => l ++ ['\n']).flatten) = lines ++ [[]] := by
  induction lines with
  | nil => rfl
  | cons l ls ih =>
    simp only [List.map_cons, List.flatten_cons]
    have hshape : (l ++ ['\n']) ++ ((ls.map fun l => l ++ ['\n']).flatten) =
        l ++ '\n' :: ((ls.map fun l => l ++ ['\n']).flatten) := by
      simp
    rw [hshape]
    unfold splitNl
    rw [splitCh_append_cons _ (h l (List.mem_cons_self l ls))]
    have := ih fun x hx => h x (List.mem_cons_of_mem l hx)
    unfold splitNl at this
    rw [this]
    rfl

/-- C1: reading back a session written by `N` appends returns exactly the
`min(N, 2 * maxTurns)` most recent messages in their original relative order
(the suffix of the appended sequence), and reading a session key with no log
file returns the empty sequence.  Stated for any positive configured
`maxTurns` (the `slice(-0)` quirk of JavaScript makes `maxTurns = 0` return
everything instead). -/
theorem C1_append_read_back (maxTurns : Nat) (hmt : 1 ≤ maxTurns)
    (msgs : List SessionMessage) :
    getMessages maxTurns (msgs.foldl appendMessage none) =
      msgs.drop (msgs.length - maxTurns * 2) ∧
    (msgs.drop (msgs.length - maxTurns * 2)).length =
      min msgs.length (maxTurns * 2) ∧
    getMessages maxTurns none = [] := by
  refine ⟨?_, by rw [List.length_drop]; omega, rfl⟩
  cases hm : msgs with
  | nil => simp [getMessages]
  | cons m ms =>
    rw [foldl_appendMessage_cons]
    simp only [getMessages]
    have hmm : ((m :: ms).map fun x => encodeMsg x ++ ['\n']) =
        (((m :: ms).map encodeMsg).map fun l => l ++ ['\n']) := by
      rw [List.map_map]
      rfl
    rw [hmm, splitNl_records _ (by
      intro l hl
      rcases List.mem_map.mp hl with ⟨x, _, rfl⟩
      exact encodeMsg_no_nl x)]
    have hfilter : (((m :: ms).map encodeMsg) ++ [[]]).filter
        (fun l => !isBlank l) = (m :: ms).map encodeMsg := by
      rw [List.filter_append]
      have h1 : List.filter (fun l => !isBlank l) [([] : List Char)] = [] := by
        simp [isBlank]
      rw [h1, List.append_nil, List.filter_eq_self]
      intro l hl
      rcases List.mem_map.mp hl with ⟨x, _, rfl⟩
      simp [encodeMsg_not_blank]
    rw [hfilter, List.map_map]
    have hdec : ((m :: ms).map (decodeMsg ∘ encodeMsg)) = m :: ms := by
      have : ∀ x ∈ m :: ms, (decodeMsg ∘ encodeMsg) x = id x := fun x _ =>
        decodeMsg_encodeMsg x
      rw [List.map_congr_left this, List.map_id]
    rw [hdec]
    by_cases hlen : (m :: ms).length > maxTurns * 2
    · rw [if_pos hlen]
      unfold sliceLast
      rw [if_neg (by omega)]
    · rw [if_neg hlen]
      rw [Nat.sub_eq_zero_of_le (by omega), List.drop_zero]

/-- Witness for C1: three appends with `maxTurns = 1` read back as the last
two messages. -/
theorem C1_witness :
    1 ≤ 1 ∧
    getMessages 1
      ([⟨Role.user, "one", 1, none, none⟩,
        ⟨Role.assistant, "two", 2, some "tg", none⟩,
        ⟨Role.user, "three", 3, none, some "me"⟩].foldl appendMessage none) =
      [⟨Role.assistant, "two", 2, some "tg", none⟩,
        ⟨Role.user, "three", 3, none, some "me"⟩] :=
  ⟨by decide,
    (C1_append_read_back 1 (by decide)
      [⟨Role.user, "one", 1, none, none⟩,
        ⟨Role.assistant, "two", 2, some "tg", none⟩,
        ⟨Role.user, "three", 3, none, some "me"⟩]).1⟩

/-! Calendar lemmas for the scheduler's date arithmetic. -/

theorem daysInMonth_pos (y m : Nat) : 0 < daysInMonth y m := by
  unfold daysInMonth
  split
  · split <;> omega
  · split <;> omega

theorem daysInYear_ge (y : Nat) : 365 ≤ daysInYear y := by
  unfold daysInYear
  split <;> omega

theorem daysInYear_le (y : Nat) : daysInYear y ≤ 366 := by
  unfold daysInYear
  split <;> omega

theorem monthsDaysAux_succ (k y m : Nat) :
    monthsDaysAux (k + 1) y m =
      monthsDaysAux k y m + daysInMonth y (m + k) := by
  induction k generalizing m with
  | zero => simp [monthsDaysAux]
  | succ k ih =>
    show daysInMonth y m + monthsDaysAux (k + 1) y (m + 1) = _
    rw [ih (m + 1)]
    show daysInMonth y m + (monthsDaysAux k y (m + 1) + daysInMonth y (m + 1 + k)) =
      daysInMonth y m + monthsDaysAux k y (m + 1) + daysInMonth y (m + (k + 1))
    have : m + 1 + k = m + (k + 1) := by omega
    rw [this]
    omega

set_option maxRecDepth 10000 in
theorem monthsBefore_13 (y : Nat) : monthsBefore y 13 = daysInYear y := by
  show 31 + ((if isLeap y then 29 else 28) +
    (31 + (30 + (31 + (30 + (31 + (31 + (30 + (31 + (30 + (31 + 0))))))))))) =
    daysInYear y
  unfold daysInYear
  cases hL : isLeap y <;> norm_num

theorem yearsDaysAux_add (a b y : Nat) :
    yearsDaysAux (a + b) y = yearsDaysAux a y + yearsDaysAux b (y + a) := by
  induction a generalizing y with
  | zero => simp [yearsDaysAux]
  | succ a ih =>
    rw [show a + 1 + b = (a + b) + 1 by omega]
    show daysInYear y + yearsDaysAux (a + b) (y + 1) =
      (daysInYear y + yearsDaysAux a (y + 1)) + yearsDaysAux b (y + (a + 1))
    rw [ih (y + 1)]
    have : y + 1 + a = y + (a + 1) := by omega
    rw [this]
    omega

theorem yearsDaysAux_ge (k y : Nat) : 365 * k ≤ yearsDaysAux k y := by
  induction k generalizing y with
  | zero => simp [yearsDaysAux]
  | succ k ih =>
    show 365 * (k + 1) ≤ daysInYear y + yearsDaysAux k (y + 1)
    have h1 := daysInYear_ge y
    have h2 := ih (y + 1)
    omega

theorem yearsDaysAux_ge_first (k y : Nat) (hk : 1 ≤ k) :
    365 * k + (daysInYear y - 365) ≤ yearsDaysAux k y := by
  cases k with
  | zero => omega
  | succ k =>
    show 365 * (k + 1) + (daysInYear y - 365) ≤
      daysInYear y + yearsDaysAux k (y + 1)
    have h1 := daysInYear_ge y
    have h2 := yearsDaysAux_ge k (y + 1)
    omega

theorem yearsSince1970_le (y y' : Nat) (h70 : 1970 ≤ y) (h : y ≤ y') :
    yearsSince1970 y ≤ yearsSince1970 y' := by
  unfold yearsSince1970
  rw [show y' - 1970 = (y - 1970) + (y' - y) by omega, yearsDaysAux_add]
  omega

theorem yearsSince1970_succ (y : Nat) (h70 : 1970 ≤ y) :
    yearsSince1970 (y + 1) = yearsSince1970 y + daysInYear y := by
  unfold yearsSince1970
  rw [show y + 1 - 1970 = (y - 1970) + 1 by omega, yearsDaysAux_add]
  have : 1970 + (y - 1970) = y := by omega
  rw [this]
  have h1 : yearsDaysAux 1 y = daysInYear y := by
    show daysInYear y + 0 = daysInYear y
    omega
  rw [h1]

theorem monthIter_spec :
    ∀ (fuel y m n : Nat), n < monthsDaysAux fuel y m →
      m ≤ (monthIter fuel y m n).2.1 ∧
      (monthIter fuel y m n).2.1 < m + fuel ∧
      1 ≤ (monthIter fuel y m n).2.2 ∧
      (monthIter fuel y m n).2.2 ≤ daysInMonth y (monthIter fuel y m n).2.1 ∧
      (monthIter fuel y m n).1 = y ∧
      monthsDaysAux ((monthIter fuel y m n).2.1 - m) y m +
        ((monthIter fuel y m n).2.2 - 1) = n := by
  intro fuel
  induction fuel with
  | zero =>
    intro y m n hn
    simp [monthsDaysAux] at hn
  | succ fuel ih =>
    intro y m n hn
    by_cases hlt : n < daysInMonth y m
    · have hr : monthIter (fuel + 1) y m n = (y, m, n + 1) := by
        conv_lhs => unfold monthIter
        rw [if_pos hlt]
      rw [hr]
      refine ⟨le_refl m, ?_, ?_, ?_, rfl, ?_⟩
      · show m < m + (fuel + 1)
        omega
      · show 1 ≤ n + 1
        omega
      · show n + 1 ≤ daysInMonth y m
        omega
      · show monthsDaysAux (m - m) y m + (n + 1 - 1) = n
        rw [Nat.sub_self]
        show 0 + (n + 1 - 1) = n
        omega
    · have hr : monthIter (fuel + 1) y m n =
          monthIter fuel y (m + 1) (n - daysInMonth y m) := by
        conv_lhs => unfold monthIter
        rw [if_neg hlt]
      have hn' : n - daysInMonth y m < monthsDaysAux fuel y (m + 1) := by
        have : monthsDaysAux (fuel + 1) y m =
            daysInMonth y m + monthsDaysAux fuel y (m + 1) := rfl
        omega
      obtain ⟨a1, a2, a3, a4, a5, a6⟩ := ih y (m + 1) (n - daysInMonth y m) hn'
      rw [hr]
      refine ⟨by omega, by omega, a3, a4, a5, ?_⟩
      have hm1 : (monthIter fuel y (m + 1) (n - daysInMonth y m)).2.1 - m =
          ((monthIter fuel y (m + 1) (n - daysInMonth y m)).2.1 - (m + 1)) + 1 := by
        omega
      rw [hm1]
      have hdef : monthsDaysAux
          (((monthIter fuel y (m + 1) (n - daysInMonth y m)).2.1 - (m + 1)) + 1)
          y m =
          daysInMonth y m + monthsDaysAux
            ((monthIter fuel y (m + 1) (n - daysInMonth y m)).2.1 - (m + 1))
            y (m + 1) := rfl
      rw [hdef]
      omega

theorem yearIter_spec :
    ∀ (fuel y n : Nat), n < fuel →
      y ≤ (yearIter fuel y n).1 ∧
      1 ≤ (yearIter fuel y n).2.1 ∧
      (yearIter fuel y n).2.1 ≤ 12 ∧
      1 ≤ (yearIter fuel y n).2.2 ∧
      (yearIter fuel y n).2.2 ≤
        daysInMonth (yearIter fuel y n).1 (yearIter fuel y n).2.1 ∧
      yearsDaysAux ((yearIter fuel y n).1 - y) y +
        monthsBefore (yearIter fuel y n).1 (yearIter fuel y n).2.1 +
        ((yearIter fuel y n).2.2 - 1) = n ∧
      monthsBefore (yearIter fuel y n).1 (yearIter fuel y n).2.1 +
        ((yearIter fuel y n).2.2 - 1) < daysInYear (yearIter fuel y n).1 := by
  intro fuel
  induction fuel with
  | zero =>
    intro y n hn
    omega
  | succ fuel ih =>
    intro y n hn
    by_cases hlt : n < daysInYear y
    · have hr : yearIter (fuel + 1) y n = monthIter 12 y 1 n := by
        conv_lhs => unfold yearIter
        rw [if_pos hlt]
      have hmd : n < monthsDaysAux 12 y 1 := by
        have : monthsDaysAux 12 y 1 = monthsBefore y 13 := rfl
        rw [this, monthsBefore_13]
        exact hlt
      obtain ⟨a1, a2, a3, a4, a5, a6⟩ := monthIter_spec 12 y 1 n hmd
      rw [hr]
      rw [a5]
      have hmb : monthsBefore y (monthIter 12 y 1 n).2.1 =
          monthsDaysAux ((monthIter 12 y 1 n).2.1 - 1) y 1 := rfl
      refine ⟨by omega, a1, by omega, a3, a4, ?_, ?_⟩
      · rw [Nat.sub_self]
        show 0 + monthsBefore y (monthIter 12 y 1 n).2.1 +
          ((monthIter 12 y 1 n).2.2 - 1) = n
        rw [hmb]
        omega
      · rw [hmb]
        omega
    · have hr : yearIter (fuel + 1) y n =
          yearIter fuel (y + 1) (n - daysInYear y) := by
        conv_lhs => unfold yearIter
        rw [if_neg hlt]
      have hge := daysInYear_ge y
      have hn' : n - daysInYear y < fuel := by omega
      obtain ⟨a1, a2, a3, a4, a5, a6, a7⟩ := ih (y + 1) (n - daysInYear y) hn'
      rw [hr]
      refine ⟨by omega, a2, a3, a4, a5, ?_, a7⟩
      have hy1 : (yearIter fuel (y + 1) (n - daysInYear y)).1 - y =
          ((yearIter fuel (y + 1) (n - daysInYear y)).1 - (y + 1)) + 1 := by
        omega
      rw [hy1, show ((yearIter fuel (y + 1) (n - daysInYear y)).1 - (y + 1)) + 1 =
        1 + ((yearIter fuel (y + 1) (n - daysInYear y)).1 - (y + 1)) by omega,
        yearsDaysAux_add]
      have h1y : yearsDaysAux 1 y = daysInYear y := by
        show daysInYear y + 0 = daysInYear y
        omega
      rw [h1y]
      omega

theorem ymdFromDays_spec (n : Nat) :
    1970 ≤ (ymdFromDays n).1 ∧
    1 ≤ (ymdFromDays n).2.1 ∧
    (ymdFromDays n).2.1 ≤ 12 ∧
    1 ≤ (ymdFromDays n).2.2 ∧
    (ymdFromDays n).2.2 ≤ daysInMonth (ymdFromDays n).1 (ymdFromDays n).2.1 ∧
    yearsSince1970 (ymdFromDays n).1 +
      monthsBefore (ymdFromDays n).1 (ymdFromDays n).2.1 +
      ((ymdFromDays n).2.2 - 1) = n ∧
    monthsBefore (ymdFromDays n).1 (ymdFromDays n).2.1 +
      ((ymdFromDays n).2.2 - 1) < daysInYear (ymdFromDays n).1 := by
  have hdef : ymdFromDays n = yearIter (n + 1) 1970 n := rfl
  rw [hdef]
  obtain ⟨a1, a2, a3, a4, a5, a6, a7⟩ :=
    yearIter_spec (n + 1) 1970 n (by omega)
  refine ⟨a1, a2, a3, a4, a5, ?_, a7⟩
  have hys : yearsSince1970 (yearIter (n + 1) 1970 n).1 =
      yearsDaysAux ((yearIter (n + 1) 1970 n).1 - 1970) 1970 := rfl
  rw [hys]
  exact a6

theorem daysFromYmd_ymdFromDays (n : Nat) :
    daysFromYmd (ymdFromDays n).1 (ymdFromDays n).2.1 (ymdFromDays n).2.2 =
      n := by
  obtain ⟨_, _, _, _, _, a6, _⟩ := ymdFromDays_spec n
  unfold daysFromYmd
  exact a6

theorem ymd_year_lb (n : Nat) : yearsSince1970 (ymdFromDays n).1 ≤ n := by
  obtain ⟨_, _, _, _, _, a6, _⟩ := ymdFromDays_spec n
  omega

theorem ymd_year_ub (n : Nat) :
    n < yearsSince1970 ((ymdFromDays n).1 + 1) := by
  obtain ⟨a1, _, _, _, _, a6, a7⟩ := ymdFromDays_spec n
  rw [yearsSince1970_succ _ a1]
  omega

theorem ymd_year_mono {n n' : Nat} (h : n ≤ n') :
    (ymdFromDays n).1 ≤ (ymdFromDays n').1 := by
  by_contra hc
  push_neg at hc
  have h1 : (ymdFromDays n').1 + 1 ≤ (ymdFromDays n).1 := by omega
  have h2 := ymd_year_ub n'
  have h3 := ymd_year_lb n
  have h4 : yearsSince1970 ((ymdFromDays n').1 + 1) ≤
      yearsSince1970 (ymdFromDays n).1 := by
    apply yearsSince1970_le
    · have := (ymdFromDays_spec n').1
      omega
    · exact h1
  omega

set_option maxRecDepth 10000 in
theorem monthsBefore_leap_bound (y1 y2 m : Nat) (h1 : 1 ≤ m) (h2 : m ≤ 12) :
    monthsBefore y1 m ≤ monthsBefore y2 m +
      (if isLeap y1 then 1 else 0) := by
  interval_cases m <;>
    cases hL1 : isLeap y1 <;> cases hL2 : isLeap y2 <;>
      simp [monthsBefore, monthsDaysAux, daysInMonth, hL1, hL2]

theorem daysFromYmd_year_gap (y1 y2 m d : Nat) (h70 : 1970 ≤ y1)
    (hlt : y1 < y2) (hm1 : 1 ≤ m) (hm2 : m ≤ 12) :
    daysFromYmd y1 m d + 365 * (y2 - y1) ≤ daysFromYmd y2 m d := by
  unfold daysFromYmd
  have hys : yearsSince1970 y2 =
      yearsSince1970 y1 + yearsDaysAux (y2 - y1) y1 := by
    unfold yearsSince1970
    rw [show y2 - 1970 = (y1 - 1970) + (y2 - y1) by omega, yearsDaysAux_add,
      show 1970 + (y1 - 1970) = y1 by omega]
  have hgap := yearsDaysAux_ge_first (y2 - y1) y1 (by omega)
  have hmb := monthsBefore_leap_bound y1 y2 m hm1 hm2
  have hdy : daysInYear y1 - 365 = (if isLeap y1 then 1 else 0) := by
    unfold daysInYear
    split <;> omega
  rw [hdy] at hgap
  omega

theorem head_filter_filterMap (f : Nat → Option Nat) (p : Nat → Bool)
    (v : Nat) :
    ∀ (pre : List Nat) (post : List Nat) (j : Nat),
      (∀ k ∈ pre, ∀ c, f k = some c → p c = false) →
      f j = some v → p v = true →
      ((((pre ++ j :: post).filterMap f).filter p).head?) = some v := by
  intro pre
  induction pre with
  | nil =>
    intro post j _ hj hv
    rw [List.nil_append, List.filterMap_cons_some hj,
      List.filter_cons_of_pos hv]
    rfl
  | cons k pre ih =>
    intro post j hpre hj hv
    rw [List.cons_append]
    rcases hfk : f k with _ | c
    · rw [List.filterMap_cons_none hfk]
      exact ih post j (fun x hx => hpre x (List.mem_cons_of_mem k hx)) hj hv
    · rw [List.filterMap_cons_some hfk]
      have hpc : p c = false := hpre k (List.mem_cons_self k pre) c hfk
      rw [List.filter_cons_of_neg (by simp [hpc])]
      exact ih post j (fun x hx => hpre x (List.mem_cons_of_mem k hx)) hj hv

/-- The croner model returns exactly the minute-truncation of `T + N`
minutes for the one-shot date pattern generated from that instant, provided
the instant is at most 365 days ahead. -/
theorem cronNextRun_atDate (off T N : Nat) (hN : 1 ≤ N)
    (hbound : N ≤ 525600) :
    cronNextRun off T
      (CronExpr.atDate (getMinutesJS off (T + N * 60000))
        (getHoursJS off (T + N * 60000))
        (getDateJS off (T + N * 60000))
        (getMonthJS off (T + N * 60000))) =
      some (T + N * 60000 - (T + N * 60000) % 60000) := by
  have hut : localMin off (T + N * 60000) = localMin off T + N := by
    unfold localMin
    omega
  set un := localMin off T with hun
  set ut := localMin off (T + N * 60000) with hutdef
  set Y := (ymdFromDays (ut / 1440)).1 with hY
  set M := (ymdFromDays (ut / 1440)).2.1 with hM
  set D := (ymdFromDays (ut / 1440)).2.2 with hD
  set y0 := (ymdFromDays (un / 1440)).1 with hy0
  obtain ⟨s1, s2, s3, s4, s5, s6, s7⟩ := ymdFromDays_spec (ut / 1440)
  obtain ⟨t1, t2, t3, t4, t5, t6, t7⟩ := ymdFromDays_spec (un / 1440)
  have hrt : daysFromYmd Y M D = ut / 1440 := daysFromYmd_ymdFromDays _
  have htod : (getHoursJS off (T + N * 60000)) * 60 +
      getMinutesJS off (T + N * 60000) = ut % 1440 := by
    unfold getHoursJS getMinutesJS
    omega
  have hvalid : (1 ≤ M && M ≤ 12 && 1 ≤ D && D ≤ daysInMonth Y M) = true := by
    simp only [Bool.and_eq_true, decide_eq_true_iff]
    exact ⟨⟨⟨s2, s3⟩, s4⟩, s5⟩
  have hcandY : atDateCandidate (getMinutesJS off (T + N * 60000))
      (getHoursJS off (T + N * 60000)) D M Y = some ut := by
    unfold atDateCandidate
    rw [if_pos hvalid, hrt]
    simp only [Option.some.injEq]
    omega
  have hy0Y : y0 ≤ Y := ymd_year_mono (Nat.div_le_div_right (by omega))
  have hY2 : Y ≤ y0 + 2 := by
    by_contra hc
    push_neg at hc
    have hb1 : yearsSince1970 Y ≤ ut / 1440 := ymd_year_lb _
    have hb2 : un / 1440 < yearsSince1970 (y0 + 1) := ymd_year_ub _
    have hb3 : ut / 1440 ≤ un / 1440 + 366 := by omega
    have hs1 : yearsSince1970 (y0 + 2) =
        yearsSince1970 (y0 + 1) + daysInYear (y0 + 1) :=
      yearsSince1970_succ _ (by omega)
    have hs2 : yearsSince1970 (y0 + 3) =
        yearsSince1970 (y0 + 2) + daysInYear (y0 + 2) := by
      have := yearsSince1970_succ (y0 + 2) (by omega)
      rw [show y0 + 2 + 1 = y0 + 3 by omega] at this
      exact this
    have hmono : yearsSince1970 (y0 + 3) ≤ yearsSince1970 Y :=
      yearsSince1970_le _ _ (by omega) (by omega)
    have hd1 := daysInYear_ge (y0 + 1)
    have hd2 := daysInYear_ge (y0 + 2)
    omega
  have hclose : ∀ y, y0 ≤ y → y < Y → ∀ c,
      atDateCandidate (getMinutesJS off (T + N * 60000))
        (getHoursJS off (T + N * 60000)) D M y = some c →
      decide (un < c) = false := by
    intro y hy1 hy2 c hc
    unfold atDateCandidate at hc
    by_cases hval : 1 ≤ M && M ≤ 12 && 1 ≤ D && D ≤ daysInMonth y M
    · rw [if_pos hval] at hc
      have hc' : daysFromYmd y M D * 1440 +
          (getHoursJS off (T + N * 60000)) * 60 +
          getMinutesJS off (T + N * 60000) = c := by
        have := Option.some_inj.mp hc
        omega
      have hgap := daysFromYmd_year_gap y Y M D (by omega) hy2
        (by omega) (by omega)
      rw [hrt] at hgap
      have hle : c + 365 * 1440 ≤ ut := by
        have h1440 : daysFromYmd y M D * 1440 + 365 * (Y - y) * 1440 ≤
            (ut / 1440) * 1440 := by
          have := Nat.mul_le_mul_right 1440 hgap
          omega
        have hY1 : 1 ≤ Y - y := by omega
        have hmod : ut % 1440 < 1440 := Nat.mod_lt _ (by omega)
        have hsplit : (ut / 1440) * 1440 + ut % 1440 = ut := by omega
        have : 365 * 1440 ≤ 365 * (Y - y) * 1440 := by
          have : 365 * 1 ≤ 365 * (Y - y) := Nat.mul_le_mul_left 365 hY1
          omega
        omega
      simp only [decide_eq_false_iff_not]
      omega
    · rw [if_neg hval] at hc
      exact absurd hc (by simp)
  have hfinal : (T + N * 60000 - (T + N * 60000) % 60000) =
      (ut - off) * 60000 := by
    unfold localMin at hutdef
    omega
  show (((((List.range 10).filterMap fun k =>
      atDateCandidate (getMinutesJS off (T + N * 60000))
        (getHoursJS off (T + N * 60000))
        (getDateJS off (T + N * 60000))
        (getMonthJS off (T + N * 60000)) (y0 + k)).filter
      fun c => un < c).head?).map fun c => (c - off) * 60000) = _
  have hDM : getDateJS off (T + N * 60000) = D ∧
      getMonthJS off (T + N * 60000) = M := ⟨rfl, rfl⟩
  rw [hDM.1, hDM.2]
  have hj : Y = y0 + (Y - y0) := by omega
  have hcases : Y - y0 = 0 ∨ Y - y0 = 1 ∨ Y - y0 = 2 := by omega
  have hvun : decide (un < ut) = true := by
    simp only [decide_eq_true_iff]
    omega
  rcases hcases with hcc | hcc | hcc
  · rw [show (List.range 10) = [] ++ 0 :: [1, 2, 3, 4, 5, 6, 7, 8, 9]
      by decide]
    rw [head_filter_filterMap _ _ ut [] [1, 2, 3, 4, 5, 6, 7, 8, 9] 0
      (by intro k hk; simp at hk)
      (by rw [show y0 + 0 = Y by omega]; exact hcandY) hvun]
    rw [hfinal]
    rfl
  · rw [show (List.range 10) = [0] ++ 1 :: [2, 3, 4, 5, 6, 7, 8, 9]
      by decide]
    rw [head_filter_filterMap _ _ ut [0] [2, 3, 4, 5, 6, 7, 8, 9] 1
      (by
        intro k hk c hc
        have hk0 : k = 0 := by simpa using hk
        subst hk0
        exact hclose (y0 + 0) (by omega) (by omega) c hc)
      (by rw [show y0 + 1 = Y by omega]; exact hcandY) hvun]
    rw [hfinal]
    rfl
  · rw [show (List.range 10) = [0, 1] ++ 2 :: [3, 4, 5, 6, 7, 8, 9]
      by decide]
    rw [head_filter_filterMap _ _ ut [0, 1] [3, 4, 5, 6, 7, 8, 9] 2
      (by
        intro k hk c hc
        have hk01 : k = 0 ∨ k = 1 := by simpa using hk
        rcases hk01 with rfl | rfl
        · exact hclose (y0 + 0) (by omega) (by omega) c hc
        · exact hclose (y0 + 1) (by omega) (by omega) c hc)
      (by rw [show y0 + 2 = Y by omega]; exact hcandY) hvun]
    rw [hfinal]
    rfl

theorem digit_not_ws {c : Char} (h : isDigitCh c = true) :
    isWsChar c = false := by
  unfold isWsChar
  simp only [Bool.or_eq_false_iff, decide_eq_false_iff_not]
  refine ⟨⟨⟨⟨⟨?_, ?_⟩, ?_⟩, ?_⟩, ?_⟩, ?_⟩ <;>
    (rintro rfl; exact absurd h (by decide))

theorem digit_toLower {c : Char} (h : isDigitCh c = true) :
    c.toLower = c := by
  unfold Char.toLower
  unfold isDigitCh at h
  simp only [Bool.and_eq_true, decide_eq_true_iff] at h
  have h9 : c.toNat ≤ 57 := by
    have := h.2
    rw [Char.le_def] at this
    exact this
  rw [if_neg (by omega)]

theorem map_toLower_digits (ds : List Char)
    (hds : ∀ c ∈ ds, isDigitCh c = true) : ds.map Char.toLower = ds := by
  induction ds with
  | nil => rfl
  | cons c cs ih =>
    rw [List.map_cons, digit_toLower (hds c (List.mem_cons_self c cs)),
      ih fun x hx => hds x (List.mem_cons_of_mem c hx)]

theorem takeWhile_all_append {p : Char → Bool} :
    ∀ (ds : List Char), (∀ c ∈ ds, p c = true) → ∀ (b : Char),
      p b = false → ∀ (r : List Char),
      (ds ++ b :: r).takeWhile p = ds ∧ (ds ++ b :: r).dropWhile p = b :: r := by
  intro ds
  induction ds with
  | nil =>
    intro _ b hb r
    constructor
    · simp [List.takeWhile_cons, hb]
    · simp [List.dropWhile_cons, hb]
  | cons c cs ih =>
    intro hall b hb r
    have hc : p c = true := hall c (List.mem_cons_self c cs)
    obtain ⟨ih1, ih2⟩ := ih (fun x hx => hall x (List.mem_cons_of_mem c hx))
      b hb r
    constructor
    · simp [List.takeWhile_cons, hc, ih1]
    · simp [List.dropWhile_cons, hc, ih2]

theorem jsTrim_fix {a b : Char} (mid : List Char) (ha : isWsChar a = false)
    (hb : isWsChar b = false) :
    jsTrim (a :: (mid ++ [b])) = a :: (mid ++ [b]) := by
  unfold jsTrim
  rw [List.dropWhile_cons_of_neg (by simp [ha])]
  rw [show (a :: (mid ++ [b])).reverse = b :: (mid.reverse ++ [a]) by simp]
  rw [List.dropWhile_cons_of_neg (by simp [hb])]
  rw [show (b :: (mid.reverse ++ [a])).reverse = a :: (mid ++ [b]) by simp]

theorem inMinutes_input_canonical (ds : List Char)
    (hds : ∀ c ∈ ds, isDigitCh c = true) :
    jsTrim ((("in " ++ ds.asString ++ " minutes").data).map Char.toLower) =
      ['i', 'n', ' '] ++ ds ++ [' ', 'm', 'i', 'n', 'u', 't', 'e', 's'] := by
  rw [String.data_append, String.data_append]
  have hda : (ds.asString).data = ds := List.toList_asString ds
  rw [hda, List.map_append, List.map_append, map_toLower_digits ds hds]
  rw [show ("in ".data).map Char.toLower = ['i', 'n', ' '] by decide]
  rw [show (" minutes".data).map Char.toLower =
    [' ', 'm', 'i', 'n', 'u', 't', 'e', 's'] by decide]
  rw [show (['i', 'n', ' '] : List Char) ++ ds ++
    [' ', 'm', 'i', 'n', 'u', 't', 'e', 's'] =
    'i' :: (('n' :: ' ' :: (ds ++ [' ', 'm', 'i', 'n', 'u', 't', 'e'])) ++
      ['s']) by simp]
  rw [jsTrim_fix _ (by decide) (by decide)]

/-- The `^in\s+(\d+)\s+min(?:ute)?s?$` matcher, applied to the canonical
lowered input `"in <digits> minutes"`, captures exactly the digit group. -/
theorem matchInMinutes_canonical (ds : List Char) (hne : ds ≠ [])
    (hds : ∀ c ∈ ds, isDigitCh c = true) :
    matchInMinutes (['i', 'n', ' '] ++ ds ++
      [' ', 'm', 'i', 'n', 'u', 't', 'e', 's']) = some (digitGroupVal ds) := by
  obtain ⟨d, ds', rfl⟩ := List.exists_cons_of_ne_nil hne
  have hd : isDigitCh d = true := hds d (List.mem_cons_self d ds')
  unfold matchInMinutes
  have h1 : stripLit ['i', 'n'] (['i', 'n', ' '] ++ (d :: ds') ++
      [' ', 'm', 'i', 'n', 'u', 't', 'e', 's']) =
      some (' ' :: ((d :: ds') ++ [' ', 'm', 'i', 'n', 'u', 't', 'e', 's'])) := by
    simp [stripLit]
  rw [h1]
  simp only [Option.pure_def, Option.bind_eq_bind, Option.some_bind]
  have h2 : ws1 (' ' :: ((d :: ds') ++
      [' ', 'm', 'i', 'n', 'u', 't', 'e', 's'])) =
      some ((d :: ds') ++ [' ', 'm', 'i', 'n', 'u', 't', 'e', 's']) := by
    show (if isWsChar ' ' = true then
      some (((d :: ds') ++
        [' ', 'm', 'i', 'n', 'u', 't', 'e', 's']).dropWhile isWsChar)
      else none) = _
    rw [List.cons_append, List.dropWhile_cons_of_neg (by simp [digit_not_ws hd])]
    simp [isWsChar]
  rw [h2]
  simp only [Option.some_bind]
  obtain ⟨htake, hdrop⟩ := takeWhile_all_append (d :: ds') hds ' '
    (by decide) ['m', 'i', 'n', 'u', 't', 'e', 's']
  rw [htake, hdrop]
  rfl

/-- `parseTimeToJob` on input `"in <digits> minutes"` takes the relative
branch and returns the one-shot template whose cron date fields are the local
calendar fields of `now + mins * 60000`. -/
theorem parseTimeToJob_in_minutes_spec (off now : Nat) (channel sender : String)
    (ds : List Char) (hne : ds ≠ [])
    (hds : ∀ c ∈ ds, isDigitCh c = true) :
    parseTimeToJob off now ("in " ++ ds.asString ++ " minutes") channel sender =
      some { name := "Reminder in " ++ toString (digitGroupVal ds) ++ "m"
             cronExpr := .atDate
               (getMinutesJS off (now + digitGroupVal ds * 60000))
               (getHoursJS off (now + digitGroupVal ds * 60000))
               (getDateJS off (now + digitGroupVal ds * 60000))
               (getMonthJS off (now + digitGroupVal ds * 60000))
             message := ""
             channel := channel
             sender := sender
             oneShot := true } := by
  unfold parseTimeToJob
  rw [inMinutes_input_canonical ds hds]
  simp only [matchInMinutes_canonical ds hne hds]

/-- Unfolding of the job store after `addJob`: the template is pushed with the
fresh id, then `startCronForJob` assigns `nextRunAt` through the shared
reference to every store entry carrying that id. -/
theorem addJob_store_eq (off now : Nat) (uuid : String) (s : SchedState)
    (tmpl : JobTemplate) :
    (addJob off now uuid s tmpl).1.jobStore =
      (s.jobStore ++
        [({ id := uuid, name := tmpl.name, cronExpr := tmpl.cronExpr,
            message := tmpl.message, channel := tmpl.channel,
            sender := tmpl.sender, oneShot := tmpl.oneShot,
            createdAt := now } : ScheduledJob)]).map fun j =>
        if j.id = uuid then
          { j with nextRunAt := cronNextRun off now tmpl.cronExpr }
        else j := rfl

/-- C8 counterexample: the original claim fails for large `N`.  Parsing
`"in 527040 minutes"` (366 days) at `T = 1767225600000`
(2026-01-01T00:00Z, offset 0) yields the cron date `0 0 2 1` — a *yearly*
pattern with no year field — so croner's next run is 2026-01-02T00:00Z
(`1767312000000`), not the claimed `T + N` minutes truncated to the minute
(2027-01-02T00:00Z, `1798848000000`). -/
theorem C8_counterexample :
    parseTimeToJob 0 1767225600000 "in 527040 minutes" "tg" "me" =
      some { name := "Reminder in 527040m", cronExpr := CronExpr.atDate 0 0 2 1,
             message := "", channel := "tg", sender := "me", oneShot := true } ∧
    (addJob 0 1767225600000 "job-1" ⟨[], [], []⟩
        { name := "Reminder in 527040m", cronExpr := CronExpr.atDate 0 0 2 1,
          message := "", channel := "tg", sender := "me",
          oneShot := true }).2.nextRunAt = some 1767312000000 ∧
    (1767312000000 : Nat) ≠
      1767225600000 + 527040 * 60000 -
        (1767225600000 + 527040 * 60000) % 60000 := by
  refine ⟨by decide, by decide, by decide⟩

/-- C8 (amended): for every positive `N` of at most 525600 (365 days of
minutes), parsing `"in N minutes"` at epoch time `T` produces a one-shot
template, and after `addJob` both the returned job object and the store entry
with the fresh id carry `nextRunAt = T + N minutes` truncated to the whole
minute.  The bound is needed because the generated cron pattern recurs
yearly (see the counterexample). -/
theorem C8_in_minutes_next_run (off T N : Nat) (uuid channel sender : String)
    (s : SchedState) (ds : List Char) (hne : ds ≠ [])
    (hds : ∀ c ∈ ds, isDigitCh c = true) (hval : digitGroupVal ds = N)
    (hN : 1 ≤ N) (hbound : N ≤ 525600) :
    ∃ tmpl,
      parseTimeToJob off T ("in " ++ ds.asString ++ " minutes") channel
        sender = some tmpl ∧
      tmpl.oneShot = true ∧
      (addJob off T uuid s tmpl).2.nextRunAt =
        some (T + N * 60000 - (T + N * 60000) % 60000) ∧
      ∃ j ∈ (addJob off T uuid s tmpl).1.jobStore,
        j.id = uuid ∧
        j.nextRunAt = some (T + N * 60000 - (T + N * 60000) % 60000) := by
  subst hval
  have hnext := cronNextRun_atDate off T (digitGroupVal ds) hN hbound
  refine ⟨_, parseTimeToJob_in_minutes_spec off T channel sender ds hne hds,
    rfl, hnext, ?_⟩
  rw [addJob_store_eq]
  refine ⟨_, List.mem_map_of_mem _ (List.mem_append_right _
    (List.mem_singleton_self _)), ?_⟩
  rw [if_pos rfl]
  exact ⟨rfl, hnext⟩

/-- C8 witness: the amended theorem at `"in 5 minutes"`, parsed at
2026-01-01T00:00Z with offset 0 into an empty scheduler state. -/
theorem C8_witness :
    (['5'] : List Char) ≠ [] ∧ digitGroupVal ['5'] = 5 ∧
    1 ≤ 5 ∧ 5 ≤ 525600 ∧
    ∃ tmpl,
      parseTimeToJob 0 1767225600000
        ("in " ++ (['5'] : List Char).asString ++ " minutes") "tg" "me" =
        some tmpl ∧
      tmpl.oneShot = true ∧
      (addJob 0 1767225600000 "j" ⟨[], [], []⟩ tmpl).2.nextRunAt =
        some (1767225600000 + 5 * 60000 -
          (1767225600000 + 5 * 60000) % 60000) ∧
      ∃ j ∈ (addJob 0 1767225600000 "j" ⟨[], [], []⟩ tmpl).1.jobStore,
        j.id = "j" ∧
        j.nextRunAt = some (1767225600000 + 5 * 60000 -
          (1767225600000 + 5 * 60000) % 60000) :=
  ⟨by decide, by decide, by decide, by decide,
    C8_in_minutes_next_run 0 1767225600000 5 "j" "tg" "me" ⟨[], [], []⟩ ['5']
      (by decide) (by decide) (by decide) (by decide) (by decide)⟩

theorem agentReplies_nonempty (env : RouterEnv) (key text : String) :
    1 ≤ (agentReplies env key text).length := by
  unfold agentReplies
  rcases env.agent key text with e | t <;> simp

theorem handleCommandAux_replies_nonempty {env : RouterEnv}
    {ch sd cmd arg : String} {rs : List String}
    (h : handleCommandAux env ch sd cmd arg = some rs) : 1 ≤ rs.length := by
  unfold handleCommandAux at h
  by_cases h1 : cmd = "/reset"
  · rw [if_pos h1, Option.some_inj] at h
    subst h
    simp
  rw [if_neg h1] at h
  by_cases h2 : cmd = "/status"
  · rw [if_pos h2, Option.some_inj] at h
    subst h
    simp
  rw [if_neg h2] at h
  by_cases h3 : cmd = "/memory"
  · rw [if_pos h3, Option.some_inj] at h
    subst h
    simp
  rw [if_neg h3] at h
  by_cases h4 : cmd = "/search"
  · rw [if_pos h4] at h
    by_cases ha : arg = ""
    · rw [if_pos ha, Option.some_inj] at h
      subst h
      simp
    · rw [if_neg ha, Option.some_inj] at h
      subst h
      simp
  rw [if_neg h4] at h
  by_cases h5 : cmd = "/schedule"
  · rw [if_pos h5] at h
    by_cases ha : arg = ""
    · rw [if_pos ha, Option.some_inj] at h
      subst h
      simp
    · rw [if_neg ha] at h
      rcases htp : tryParseSchedule env.off env.now arg ch sd with _ | ⟨tmpl, rt⟩
      · simp only [htp, Option.some_inj] at h
        subst h
        simp
      · simp only [htp, Option.some_inj] at h
        subst h
        simp
  rw [if_neg h5] at h
  by_cases h6 : cmd = "/jobs"
  · rw [if_pos h6, Option.some_inj] at h
    subst h
    simp
  rw [if_neg h6] at h
  by_cases h7 : cmd = "/cancel"
  · rw [if_pos h7] at h
    by_cases ha : arg = ""
    · rw [if_pos ha, Option.some_inj] at h
      subst h
      simp
    · rw [if_neg ha, Option.some_inj] at h
      subst h
      simp
  rw [if_neg h7] at h
  by_cases h8 : cmd = "/heartbeat"
  · rw [if_pos h8, Option.some_inj] at h
    subst h
    simp
  rw [if_neg h8] at h
  by_cases h9 : cmd = "/skills"
  · rw [if_pos h9] at h
    by_cases ha : arg = "sync"
    · rw [if_pos ha, Option.some_inj] at h
      subst h
      simp
    rw [if_neg ha] at h
    by_cases hb : strStarts arg "install " = true
    · rw [if_pos hb, Option.some_inj] at h
      subst h
      simp
    rw [if_neg hb] at h
    by_cases hc : env.statuses.isEmpty = true
    · rw [if_pos hc, Option.some_inj] at h
      subst h
      simp
    · rw [if_neg hc, Option.some_inj] at h
      subst h
      simp
  rw [if_neg h9] at h
  exact absurd h (by simp)

theorem handleCommand_replies_nonempty {env : RouterEnv}
    {ch sd text : String} {rs : List String}
    (h : handleCommand env ch sd text = some rs) : 1 ≤ rs.length := by
  unfold handleCommand at h
  exact handleCommandAux_replies_nonempty h

theorem handleMessageReplies_plain (env : RouterEnv) (ch sd text : String)
    (h : strStarts (strTrim text) "/" = false) :
    handleMessageReplies env ch sd text =
      agentReplies env (sessionKeyFromMessage ch sd) (strTrim text) := by
  show (if strStarts (strTrim text) "/" = true then
      match handleCommand env ch sd (strTrim text) with
      | some rs => rs
      | none => agentReplies env (sessionKeyFromMessage ch sd) (strTrim text)
    else agentReplies env (sessionKeyFromMessage ch sd) (strTrim text)) =
      agentReplies env (sessionKeyFromMessage ch sd) (strTrim text)
  rw [h, if_neg (by simp)]

theorem handleMessageReplies_nonempty (env : RouterEnv)
    (ch sd text : String) :
    1 ≤ (handleMessageReplies env ch sd text).length := by
  show 1 ≤ (if strStarts (strTrim text) "/" = true then
      match handleCommand env ch sd (strTrim text) with
      | some rs => rs
      | none => agentReplies env (sessionKeyFromMessage ch sd) (strTrim text)
    else agentReplies env (sessionKeyFromMessage ch sd) (strTrim text)).length
  by_cases hs : strStarts (strTrim text) "/" = true
  · rw [if_pos hs]
    rcases hc : handleCommand env ch sd (strTrim text) with _ | rs
    · simp only [hc]
      exact agentReplies_nonempty env _ _
    · simp only [hc]
      exact handleCommand_replies_nonempty hc
  · rw [if_neg hs]
    exact agentReplies_nonempty env _ _

/-- C3 counterexample: a `command` request routed to the `/skills install`
branch of `handleCommand` invokes `reply` twice ("Installing ..." then the
result), so the daemon writes two `command_response` messages on the
connection, not exactly one. -/
theorem C3_counterexample :
    (handleClientMessage sampleEnv
      (.command "terminal:1" "/skills" "install foo")).length = 2 ∧
    handleClientMessage sampleEnv
        (.command "terminal:1" "/skills" "install foo") =
      [.commandResponse "Installing foo...",
        .commandResponse "Installed foo."] := by
  exact ⟨rfl, rfl⟩

/-- C3 (amended): every client request yields at least one server response on
its connection, and a `chat` request whose trimmed text is not a slash
command yields exactly one `chat_response` carrying the request's `sessionId`
with `done = true`.  (Slash-command texts can yield two responses through the
`/skills` install and empty-list sync branches.) -/
theorem C3_every_request_responded (env : RouterEnv) :
    (∀ m : ClientMessage, 1 ≤ (handleClientMessage env m).length) ∧
    (∀ sid text : String, strStarts (strTrim text) "/" = false →
      ∃ t, handleClientMessage env (.chat sid text) =
        [.chatResponse sid t true]) := by
  constructor
  · intro m
    cases m with
    | ping => simp [handleClientMessage]
    | status => simp [handleClientMessage]
    | chat sid text =>
      unfold handleClientMessage
      rw [List.length_map]
      exact handleMessageReplies_nonempty env _ _ _
    | command sid cmd args =>
      unfold handleClientMessage
      rw [List.length_map]
      exact handleMessageReplies_nonempty env _ _ _
  · intro sid text h
    have hr : handleClientMessage env (.chat sid text) =
        (handleMessageReplies env "terminal" sid text).map fun t =>
          .chatResponse sid t true := rfl
    rw [hr, handleMessageReplies_plain env "terminal" sid text h]
    unfold agentReplies
    rcases env.agent (sessionKeyFromMessage "terminal" sid) (strTrim text)
      with e | t
    · exact ⟨"Error: " ++ e, rfl⟩
    · exact ⟨t, rfl⟩

/-- Witness for C3 (amended) at the chat text `hello`. -/
theorem C3_witness :
    strStarts (strTrim "hello") "/" = false ∧
    ∃ t, handleClientMessage sampleEnv (.chat "terminal:1" "hello") =
      [.chatResponse "terminal:1" t true] :=
  ⟨by decide,
    (C3_every_request_responded sampleEnv).2 "terminal:1" "hello" (by decide)⟩

/-- C10: `sessionKeyFromMessage` replaces every character of the sender
outside `[a-zA-Z0-9_@+-]` with an underscore, so two distinct senders on the
same channel can collapse to the same session key and hence to the same
transcript log file: `user.name` and `user,name` both map to
`telegram:user_name`. -/
theorem C10_session_key_not_injective :
    "user.name" ≠ "user,name" ∧
    sessionKeyFromMessage "telegram" "user.name" = "telegram:user_name" ∧
    sessionKeyFromMessage "telegram" "user,name" = "telegram:user_name" ∧
    sessionFilePath "sessions" (sessionKeyFromMessage "telegram" "user.name") =
      sessionFilePath "sessions" (sessionKeyFromMessage "telegram" "user,name") := by
  refine ⟨by decide, ?_, ?_, ?_⟩ <;> rfl

/-- C7: `isDaemonRunning` reports `{running: false}` — without throwing and
without touching the PID file — whenever the PID file is absent, its trimmed
content does not `parseInt` to a number, or the process it names is dead. -/
theorem C7_is_daemon_running_false_on_stale (env : ProcEnv)
    (h : env.pidFile = none ∨
      (∃ c, env.pidFile = some c ∧ parseIntJS (jsTrim c.data) = none) ∨
      (∃ c p, env.pidFile = some c ∧ parseIntJS (jsTrim c.data) = some p ∧
        env.alive p = false)) :
    isDaemonRunning env = ({ running := false, pid := none }, env) := by
  rcases h with h | ⟨c, hc, hp⟩ | ⟨c, p, hc, hp, ha⟩
  · simp [isDaemonRunning, h]
  · simp [isDaemonRunning, hc, hp]
  · simp [isDaemonRunning, hc, hp, ha]

/-- Witness for C7 at a PID file containing unparseable text. -/
theorem C7_witness :
    isDaemonRunning { pidFile := some "garbage", alive := fun _ => true } =
      ({ running := false, pid := none },
        { pidFile := some "garbage", alive := fun _ => true }) :=
  C7_is_daemon_running_false_on_stale _
    (Or.inr (Or.inl ⟨"garbage", rfl, by decide⟩))

/-- C5: firing a one-shot job invokes the registered callback exactly once
(with the job carrying the fresh `lastRunAt`), after which the job is gone
from `listJobs()`, from the persisted store, and from the live timers. -/
theorem C5_one_shot_fire_removes (s : SchedState) (job : ScheduledJob)
    (now : Nat)
    (hin : s.jobStore.find? (fun j => j.id = job.id) = some job)
    (hone : job.oneShot = true)
    (hnd : s.activeJobs.Nodup) :
    (fireJob true s job.id now).2 = [{ job with lastRunAt := some now }] ∧
    (∀ j ∈ listJobs (fireJob true s job.id now).1, j.id ≠ job.id) ∧
    (∀ j ∈ (fireJob true s job.id now).1.persisted, j.id ≠ job.id) ∧
    job.id ∉ (fireJob true s job.id now).1.activeJobs := by
  have hfj : fireJob true s job.id now =
      ((removeJob { s with jobStore := s.jobStore.map fun j =>
          if j.id = job.id then { j with lastRunAt := some now } else j }
        job.id).1, [{ job with lastRunAt := some now }]) := by
    simp only [fireJob, hin, hone, if_pos]
  refine ⟨by rw [hfj], ?_, ?_, ?_⟩ <;> rw [hfj]
  · intro j hj
    simp only [removeJob, saveJobs, listJobs, List.mem_filter] at hj
    simpa using hj.2
  · intro j hj
    simp only [removeJob, saveJobs, List.mem_filter] at hj
    simpa using hj.2
  · simp only [removeJob, saveJobs]
    exact hnd.not_mem_erase

/-- Witness for C5 at a concrete one-job state. -/
theorem C5_witness :
    (fireJob true
      ⟨[⟨"A", "r", .daily 0 9, "m", "tg", "me", true, 0, some 5, none⟩], ["A"],
        [⟨"A", "r", .daily 0 9, "m", "tg", "me", true, 0, some 5, none⟩]⟩
      "A" 77).2 =
      [⟨"A", "r", .daily 0 9, "m", "tg", "me", true, 0, some 5, some 77⟩] ∧
    (∀ j ∈ listJobs (fireJob true
      ⟨[⟨"A", "r", .daily 0 9, "m", "tg", "me", true, 0, some 5, none⟩], ["A"],
        [⟨"A", "r", .daily 0 9, "m", "tg", "me", true, 0, some 5, none⟩]⟩
      "A" 77).1, j.id ≠ "A") ∧
    (∀ j ∈ (fireJob true
      ⟨[⟨"A", "r", .daily 0 9, "m", "tg", "me", true, 0, some 5, none⟩], ["A"],
        [⟨"A", "r", .daily 0 9, "m", "tg", "me", true, 0, some 5, none⟩]⟩
      "A" 77).1.persisted, j.id ≠ "A") ∧
    "A" ∉ (fireJob true
      ⟨[⟨"A", "r", .daily 0 9, "m", "tg", "me", true, 0, some 5, none⟩], ["A"],
        [⟨"A", "r", .daily 0 9, "m", "tg", "me", true, 0, some 5, none⟩]⟩
      "A" 77).1.activeJobs :=
  C5_one_shot_fire_removes
    ⟨[⟨"A", "r", .daily 0 9, "m", "tg", "me", true, 0, some 5, none⟩], ["A"],
      [⟨"A", "r", .daily 0 9, "m", "tg", "me", true, 0, some 5, none⟩]⟩
    ⟨"A", "r", .daily 0 9, "m", "tg", "me", true, 0, some 5, none⟩
    77 (by decide) (by decide) (by decide)

/-- C4: the recurring branch of the croner callback persists the updated
`lastRunAt` and keeps the job in `listJobs()`, but it never recomputes
`nextRunAt`: after a daily job armed for 2026-01-01 09:00 UTC fires at that
instant, the stored and persisted `nextRunAt` still read the instant that
just fired, while the next cron instant is one day later — the claimed
strict increase does not happen. -/
theorem C4_recurring_fire_keeps_stale_next_run :
    (fireJob true
      ⟨[⟨"A", "daily", .daily 0 9, "m", "tg", "me", false, 0,
          some 1767258000000, none⟩], ["A"],
        [⟨"A", "daily", .daily 0 9, "m", "tg", "me", false, 0,
          some 1767258000000, none⟩]⟩
      "A" 1767258000000).1 =
      ⟨[⟨"A", "daily", .daily 0 9, "m", "tg", "me", false, 0,
          some 1767258000000, some 1767258000000⟩], ["A"],
        [⟨"A", "daily", .daily 0 9, "m", "tg", "me", false, 0,
          some 1767258000000, some 1767258000000⟩]⟩ ∧
    cronNextRun 0 1767258000000 (.daily 0 9) = some 1767344400000 ∧
    (1767258000000 : Nat) ≠ 1767344400000 := by
  refine ⟨by decide, by decide, by decide⟩

/-- C9 counterexample: right after `addJob`, the persisted file lags the
in-memory store (the `nextRunAt` assigned by `startCronForJob` is not yet on
disk), and `removeJob` on an unknown id unconditionally calls `saveJobs`, so
it rewrites the persisted records even though it returns `false`. -/
theorem C9_counterexample :
    (removeJob
      (addJob 0 1767258000000 "id-1" ⟨[], [], []⟩
        ⟨"n", .daily 0 9, "m", "tg", "me", false⟩).1 "missing").2 = false ∧
    (removeJob
      (addJob 0 1767258000000 "id-1" ⟨[], [], []⟩
        ⟨"n", .daily 0 9, "m", "tg", "me", false⟩).1 "missing").1.persisted ≠
      (addJob 0 1767258000000 "id-1" ⟨[], [], []⟩
        ⟨"n", .daily 0 9, "m", "tg", "me", false⟩).1.persisted := by
  refine ⟨by decide, by decide⟩

/-- C9 (amended): `removeJob` on an id that names no stored job and holds no
live timer returns `false` and leaves the in-memory job list and the timers
unchanged; the persisted file is rewritten to mirror the in-memory store
(hence byte-identical exactly when the two already agreed). -/
theorem C9_remove_job_unknown_id (s : SchedState) (id : String)
    (hid : ∀ j ∈ s.jobStore, j.id ≠ id)
    (ht : id ∉ s.activeJobs) :
    removeJob s id = ({ s with persisted := s.jobStore }, false) := by
  have herase : s.activeJobs.erase id = s.activeJobs := List.erase_of_not_mem ht
  have hfilter : List.filter (fun j => !decide (j.id = id)) s.jobStore =
      s.jobStore := by
    rw [List.filter_eq_self]
    intro j hj
    simpa using hid j hj
  simp [removeJob, saveJobs, herase]
  refine ⟨fun a ha => hid a ha, ?_⟩
  rw [hfilter]

/-- Witness for C9 (amended) at a concrete in-sync state, where the store is
untouched. -/
theorem C9_witness :
    removeJob
      ⟨[⟨"A", "r", .daily 0 9, "m", "tg", "me", false, 0, some 5, none⟩], ["A"],
        [⟨"A", "r", .daily 0 9, "m", "tg", "me", false, 0, some 5, none⟩]⟩ "B" =
      (⟨[⟨"A", "r", .daily 0 9, "m", "tg", "me", false, 0, some 5, none⟩], ["A"],
        [⟨"A", "r", .daily 0 9, "m", "tg", "me", false, 0, some 5, none⟩]⟩,
        false) :=
  C9_remove_job_unknown_id _ "B" (by decide) (by decide)

end Nakedclaw
